import Mathlib

/-
Verification of the NodeRAG graph-construction core: a shallow embedding of
the repository's graph pipeline (`NodeRAG/build/pipeline/graph_pipeline.py`),
the relationship component (`NodeRAG/build/component/relationship.py`), the
LLM error-caching decorators (`NodeRAG/logging/error.py`), the orchestration
client (`NodeRAG/LLM/LLM_route.py`) and the JSON parsing utility
(`NodeRAG/utils/json_parser.py`), together with theorems settling the spec's
claims about them.

Machine-level conventions: Python strings are Lean `String`s; Python `None`
is `Option.none`; dictionaries are association lists; exceptions are explicit
result constructors.  Content hashes (`genid`, sha256) are idealized as a free
constructor on the hashed parts, which is exactly the collision-resistance
assumption the spec makes of them.
-/

namespace NodeRAG

/-- Modelled from the spec: `ContentHash(parts) -> string` from the missing
`storage.genid`, "a deterministic, collision-resistant (cryptographic-strength)
digest" of its parts.  Collision resistance is idealized by representing a
digest as a free constructor on the hashed parts: `dig2 a b` stands for the
digest of the two-part content `[a, b]` (an entity's or semantic unit's
`(raw_text, owning_text_id)`), `rel1`/`rel2` for the digest of the one- or
two-element list that `list(frozenset(...))` yields for a relationship's
endpoint pair. -/
inductive HashId where
  | dig2 (a b : String)
  | rel1 (x : HashId)
  | rel2 (x y : HashId)
deriving DecidableEq, Repr

/-- Three-way comparison on naturals. -/
def natCmp (a b : Nat) : Ordering :=
  if a < b then .lt else if b < a then .gt else .eq

theorem natCmp_eq_iff (a b : Nat) : natCmp a b = .eq ↔ a = b := by
  unfold natCmp
  split
  · rename_i h
    simp only [reduceCtorEq, false_iff]
    exact ne_of_lt h
  · split
    · rename_i h1 h2
      simp only [reduceCtorEq, false_iff]
      exact ne_of_gt h2
    · rename_i h1 h2
      simp only [true_iff]
      exact le_antisymm (not_lt.mp h2) (not_lt.mp h1)

theorem natCmp_swap (a b : Nat) : (natCmp a b).swap = natCmp b a := by
  unfold natCmp
  rcases lt_trichotomy a b with h | h | h
  · simp [h, not_lt.mpr h.le, Ordering.swap]
  · simp [h, lt_irrefl, Ordering.swap]
  · simp [h, not_lt.mpr h.le, Ordering.swap]

/-- Lexicographic comparison of character lists. -/
def lexCmp : List Char → List Char → Ordering
  | [], [] => .eq
  | [], _ :: _ => .lt
  | _ :: _, [] => .gt
  | a :: as, b :: bs => (natCmp a.toNat b.toNat).then (lexCmp as bs)

/-- Three-way comparison on strings, used only to pick the canonical
enumeration order of a two-element `frozenset`. -/
def sCmp (a b : String) : Ordering :=
  lexCmp a.data b.data

theorem ordering_then_eq_pre (o p : Ordering) : o.then p = .eq ↔ o = .eq ∧ p = .eq := by
  cases o <;> cases p <;> simp [Ordering.then]

theorem lexCmp_eq_iff : ∀ a b : List Char, lexCmp a b = .eq ↔ a = b := by
  intro a
  induction a with
  | nil => intro b; cases b <;> simp [lexCmp]
  | cons c cs ih =>
    intro b
    cases b with
    | nil => simp [lexCmp]
    | cons d ds =>
      simp only [lexCmp, ordering_then_eq_pre, natCmp_eq_iff, ih, List.cons.injEq]
      constructor
      · rintro ⟨h1, h2⟩
        refine ⟨Char.eq_of_val_eq ?_, h2⟩
        exact UInt32.toNat.inj h1
      · rintro ⟨h1, h2⟩
        exact ⟨by rw [h1], h2⟩

theorem ordering_then_swap_pre (o p : Ordering) : (o.then p).swap = o.swap.then p.swap := by
  cases o <;> cases p <;> rfl

theorem lexCmp_swap : ∀ a b : List Char, (lexCmp a b).swap = lexCmp b a := by
  intro a
  induction a with
  | nil => intro b; cases b <;> rfl
  | cons c cs ih =>
    intro b
    cases b with
    | nil => rfl
    | cons d ds =>
      simp only [lexCmp, ordering_then_swap_pre, natCmp_swap, ih]

theorem sCmp_eq_iff (a b : String) : sCmp a b = .eq ↔ a = b := by
  unfold sCmp
  rw [lexCmp_eq_iff]
  constructor
  · intro h
    cases a; cases b
    exact congrArg String.mk h
  · intro h; rw [h]

theorem sCmp_swap (a b : String) : (sCmp a b).swap = sCmp b a :=
  lexCmp_swap a.data b.data

/-- Structural three-way comparison on hash ids; any fixed total comparison
serves, since it only models the deterministic iteration order of a Python
`frozenset` of hash strings. -/
def HashId.cmp : HashId → HashId → Ordering
  | .dig2 a b, .dig2 c d => (sCmp a c).then (sCmp b d)
  | .dig2 _ _, .rel1 _ => .lt
  | .dig2 _ _, .rel2 _ _ => .lt
  | .rel1 _, .dig2 _ _ => .gt
  | .rel1 x, .rel1 y => HashId.cmp x y
  | .rel1 _, .rel2 _ _ => .lt
  | .rel2 _ _, .dig2 _ _ => .gt
  | .rel2 _ _, .rel1 _ => .gt
  | .rel2 x y, .rel2 z w => (HashId.cmp x z).then (HashId.cmp y w)

theorem ordering_then_swap (o p : Ordering) : (o.then p).swap = o.swap.then p.swap := by
  cases o <;> cases p <;> rfl

theorem hashId_cmp_swap : ∀ a b : HashId, (HashId.cmp a b).swap = HashId.cmp b a := by
  intro a
  induction a with
  | dig2 x y =>
    intro b
    cases b <;> first
      | rfl
      | simp only [HashId.cmp, ordering_then_swap, sCmp_swap]
  | rel1 x ih =>
    intro b
    cases b <;> first
      | rfl
      | simp only [HashId.cmp, ih]
  | rel2 x y ihx ihy =>
    intro b
    cases b <;> first
      | rfl
      | simp only [HashId.cmp, ordering_then_swap, ihx, ihy]

theorem ordering_then_eq (o p : Ordering) : o.then p = .eq ↔ o = .eq ∧ p = .eq := by
  cases o <;> cases p <;> simp [Ordering.then]

theorem hashId_cmp_eq_iff : ∀ a b : HashId, HashId.cmp a b = .eq ↔ a = b := by
  intro a
  induction a with
  | dig2 x y =>
    intro b
    cases b <;> simp [HashId.cmp, ordering_then_eq, sCmp_eq_iff]
  | rel1 x ih =>
    intro b
    cases b <;> simp [HashId.cmp, ih]
  | rel2 x y ihx ihy =>
    intro b
    cases b <;> simp [HashId.cmp, ordering_then_eq, ihx, ihy]

/-- The list `list(frozenset((a, b)))` of the two endpoint hashes: a Python
`frozenset` collapses equal elements and enumerates a given set in one fixed
order, modelled here as the `HashId.cmp`-sorted enumeration. -/
def fsetPair (a b : HashId) : List HashId :=
  if a = b then [a] else if a.cmp b = .lt then [a, b] else [b, a]

theorem fsetPair_comm (a b : HashId) : fsetPair a b = fsetPair b a := by
  unfold fsetPair
  by_cases hab : a = b
  · subst hab; simp
  · have hba : b ≠ a := fun h => hab h.symm
    simp only [hab, hba, if_false]
    rcases ho : a.cmp b with _ | _ | _
    · have : b.cmp a = .gt := by rw [← hashId_cmp_swap a b, ho]; rfl
      simp [this]
    · exact absurd ((hashId_cmp_eq_iff a b).mp ho) hab
    · have : b.cmp a = .lt := by rw [← hashId_cmp_swap a b, ho]; rfl
      simp [this, ho]

/-- Modelled from the spec: `genid` applied to `list(self.unique_relationship)`,
the digest of the canonical one- or two-element endpoint list (the remaining
shape is unreachable for constructed values). -/
def genidRel (parts : List HashId) : HashId :=
  match parts with
  | [x] => .rel1 x
  | [x, y] => .rel2 x y
  | _ => .rel1 (.dig2 "" "")

/-- Modelled from the spec: the missing `Entity` component
(`NodeRAG/build/component/entity.py`), "typed records with identity":
`{raw_context (the extracted name), owning_text_id}` whose `hash_id` is the
content digest of `(raw_text, owning_text_unit_id)`. -/
structure Entity where
  raw_context : String
  text_hash_id : String
deriving DecidableEq, Repr

def Entity.hash_id (e : Entity) : HashId := .dig2 e.raw_context e.text_hash_id

/-- Modelled from the spec: the missing `Semantic_unit` component, identical in
shape to `Entity`: `{raw_context, owning_text_id}` hashed on
`(raw_text, owning_text_unit_id)`. -/
structure Semantic_unit where
  raw_context : String
  text_hash_id : String
deriving DecidableEq, Repr

def Semantic_unit.hash_id (s : Semantic_unit) : HashId :=
  .dig2 s.raw_context s.text_hash_id

/-- A Python value handed to `Relationship.add`'s iteration: the declared
`List[Any]` of tuple elements, or (as the pipeline actually passes) a plain
string, which Python iterates character by character. -/
inductive PySeq where
  | ofList (xs : List (Option String))
  | ofStr (s : String)
deriving DecidableEq, Repr

/-- Element sanitization `"" if v is None else str(v)` applied across the
iterated sequence; iterating a string yields its characters (each `str(c)`
being the one-character string). -/
def PySeq.elems : PySeq → List String
  | .ofList xs => xs.map (fun v => v.getD "")
  | .ofStr s => s.data.map (fun c => String.singleton c)

/-- `Relationship` from `NodeRAG/build/component/relationship.py`
(tuple-constructed form; the `frozen_set` reload path and the lazily cached
`_hash_id`/`_human_readable_id` fields are irrelevant to the claims and are
modelled by the pure `hash_id` function below). -/
structure Relationship where
  relationship_tuple : List String
  source : Entity
  target : Entity
  unique_relationship : List HashId
  raw_context : String
  text_hash_id : String
deriving DecidableEq, Repr

/-- `Relationship.__init__` on a `relationship_tuple`: sanitize every element
to a string, pad to at least three elements, build endpoint entities from
elements 0 and 2, form the unordered endpoint-hash pair, and join the full
tuple with single spaces as the raw context. -/
def Relationship.ofTuple (tup : List (Option String)) (text_hash_id : String) :
    Relationship :=
  let cleaned := tup.map (fun v => v.getD "")
  let cleaned := if cleaned.length < 3 then (cleaned ++ ["", "", ""]).take 3 else cleaned
  let src : Entity := ⟨cleaned.getD 0 "", text_hash_id⟩
  let tgt : Entity := ⟨cleaned.getD 2 "", text_hash_id⟩
  { relationship_tuple := cleaned
    source := src
    target := tgt
    unique_relationship := fsetPair src.hash_id tgt.hash_id
    raw_context := String.intercalate " " cleaned
    text_hash_id := text_hash_id }

/-- `Relationship.hash_id`: `genid(list(self.unique_relationship), "sha256")`. -/
def Relationship.hash_id (r : Relationship) : HashId :=
  genidRel r.unique_relationship

/-- `Relationship.add`: sanitize and space-join the iterated argument, then
append it tab-separated to the accumulated raw context. -/
def Relationship.add (r : Relationship) (relationship_tuple : PySeq) :
    Relationship :=
  { r with raw_context :=
      r.raw_context ++ "\t" ++ String.intercalate " " relationship_tuple.elems }

/-! ### The networkx graph, as the pipeline uses it

`Graph_pipeline` touches its `nx.Graph` only through `has_node`, `add_node`
(with `type` and `weight` attributes), node-weight increment, `has_edge`,
`add_edge` (with a `weight` attribute) and edge-weight increment, on an
undirected graph.  That interface is embedded over association lists, an edge
being matched in either orientation. -/

/-- Node `type` attribute values used by the pipeline. -/
inductive NType where
  | semantic_unit
  | entity
  | relationship
deriving DecidableEq, Repr

structure NodeAttr where
  type : NType
  weight : Nat
deriving DecidableEq, Repr

structure Graph where
  nodes : List (HashId × NodeAttr)
  edges : List (HashId × HashId × Nat)
deriving DecidableEq, Repr

def Graph.empty : Graph := ⟨[], []⟩

def Graph.has_node (G : Graph) (h : HashId) : Bool :=
  G.nodes.any (fun p => p.1 = h)

/-- `G.add_node(h, type=ty, weight=w)` (only ever called on absent nodes). -/
def Graph.add_node (G : Graph) (h : HashId) (ty : NType) (w : Nat) : Graph :=
  { G with nodes := (h, ⟨ty, w⟩) :: G.nodes }

/-- `G.nodes[h]['weight'] += 1`. -/
def Graph.incWeight (G : Graph) (h : HashId) : Graph :=
  let f := fun (p : HashId × NodeAttr) =>
    if p.1 = h then (p.1, NodeAttr.mk p.2.type (p.2.weight + 1)) else p
  { G with nodes := G.nodes.map f }

/-- Whether a stored edge entry joins `u` and `v` (undirected: either
orientation). -/
def edgeMatch (u v : HashId) (e : HashId × HashId × Nat) : Bool :=
  (e.1 = u ∧ e.2.1 = v) ∨ (e.1 = v ∧ e.2.1 = u)

def Graph.has_edge (G : Graph) (u v : HashId) : Bool :=
  G.edges.any (edgeMatch u v)

def Graph.add_edge (G : Graph) (u v : HashId) (w : Nat) : Graph :=
  { G with edges := (u, v, w) :: G.edges }

/-- `G[u][v]['weight'] += 1`. -/
def Graph.incEdge (G : Graph) (u v : HashId) : Graph :=
  let f := fun (e : HashId × HashId × Nat) =>
    if edgeMatch u v e then (e.1, e.2.1, e.2.2 + 1) else e
  { G with edges := G.edges.map f }

def Graph.nodeAttr (G : Graph) (h : HashId) : Option NodeAttr :=
  (G.nodes.find? (fun p => p.1 = h)).map (·.2)

def Graph.nodeType (G : Graph) (h : HashId) : Option NType :=
  (G.nodeAttr h).map (·.type)

def Graph.weightOf (G : Graph) (h : HashId) : Nat :=
  ((G.nodeAttr h).map (·.weight)).getD 0

def Graph.edgeWeight (G : Graph) (u v : HashId) : Nat :=
  ((G.edges.find? (edgeMatch u v)).map (fun e => e.2.2)).getD 0

def Graph.numNodes (G : Graph) : Nat := G.nodes.length

def Graph.numEdges (G : Graph) : Nat := G.edges.length

/-- Number of graph nodes carrying a given `type` attribute. -/
def Graph.countType (G : Graph) (ty : NType) : Nat :=
  (G.nodes.filter (fun p => p.2.type = ty)).length

/-! ### Pipeline state (`Graph_pipeline.__init__` fields the algorithms touch) -/

structure PState where
  G : Graph
  semantic_units : List Semantic_unit
  entities : List Entity
  relationship : List Relationship
  relationship_lookup : List (HashId × Relationship)
  relationship_nodes : List Entity
deriving Repr

/-- The state of a fresh construction run: no prior graph pickle and no prior
relationship parquet, so `load_graph` returns an empty graph and
`load_relationship` returns an empty list and lookup. -/
def PState.empty : PState := ⟨Graph.empty, [], [], [], [], []⟩

def lookupContains (l : List (HashId × Relationship)) (h : HashId) : Bool :=
  l.any (fun p => p.1 = h)

/-- `Graph_pipeline.add_semantic_unit`. -/
def add_semantic_unit (st : PState) (semantic_unit : String) (text_hash_id : String) :
    PState × HashId :=
  let su : Semantic_unit := ⟨semantic_unit, text_hash_id⟩
  let h := su.hash_id
  if st.G.has_node h then
    ({ st with G := st.G.incWeight h }, h)
  else
    ({ st with G := st.G.add_node h .semantic_unit 1,
               semantic_units := st.semantic_units ++ [su] }, h)

/-- One iteration of the loop in `Graph_pipeline.add_entities`. -/
def add_one_entity (text_hash_id : String) (acc : PState × List HashId)
    (entity : String) : PState × List HashId :=
  let st := acc.1
  let e : Entity := ⟨entity, text_hash_id⟩
  let h := e.hash_id
  let hs := acc.2 ++ [h]
  if st.G.has_node h then
    ({ st with G := st.G.incWeight h }, hs)
  else
    ({ st with G := st.G.add_node h .entity 1,
               entities := st.entities ++ [e] }, hs)

/-- `Graph_pipeline.add_entities`. -/
def add_entities (st : PState) (entities : List String) (text_hash_id : String) :
    PState × List HashId :=
  entities.foldl (add_one_entity text_hash_id) (st, [])

/-- `Graph_pipeline.add_semantic_belongings`. -/
def add_semantic_belongings (st : PState) (semantic_unit_hash_id : HashId)
    (hash_id : List HashId) : PState :=
  let f := fun (G : Graph) (eh : HashId) =>
    if G.has_edge semantic_unit_hash_id eh then G.incEdge semantic_unit_hash_id eh
    else G.add_edge semantic_unit_hash_id eh 1
  { st with G := hash_id.foldl f st.G }

/-! ### Relationship ingestion and the LLM reconstruction sub-call -/

/-- The response of the reconstruction LLM call, post `API_client`: either a
structured dict (each of whose retrieved keys may be absent — `missing` — or
hold a Python `None` or a string), or anything that is not a dict (an error
string such as `'Error cached'`, `None`, ...). -/
inductive LLMResp where
  | obj (source relationship target : Option (Option String))
  | nonDict
deriving Repr

/-- `response.get(key, '')`: the empty-string default applies only when the
key is missing; a key present with value `None` yields `None`. -/
def getField : Option (Option String) → Option String
  | none => some ""
  | some v => v

/-- The LLM collaborator for reconstruction calls, abstracted as a function of
the malformed field list (which the query embeds). -/
def Oracle := List String → LLMResp

/-- `Graph_pipeline.reconstruct_relationship`. -/
def reconstruct_relationship (oracle : Oracle) (relationship : List String) :
    List (Option String) :=
  match oracle relationship with
  | .nonDict =>
      if relationship.length ≥ 3 then (relationship.take 3).map some
      else relationship.map some ++ List.replicate (3 - relationship.length) (some "")
  | .obj s r t => [getField s, getField r, getField t]

/-- Whitespace in the sense of Python's `str.strip()` (ASCII range). -/
def pyIsSpace (c : Char) : Bool :=
  c = ' ' ∨ c = '\t' ∨ c = '\n' ∨ c = '\x0d' ∨ c = '\x0b' ∨ c = '\x0c'

/-- Python `str.strip()`. -/
def pyStrip (s : String) : String :=
  String.mk (((s.data.dropWhile pyIsSpace).reverse.dropWhile pyIsSpace).reverse)

def pySplitCommaAux : List Char → List Char → List String
  | [], acc => [String.mk acc.reverse]
  | c :: rest, acc =>
      if c = ',' then String.mk acc.reverse :: pySplitCommaAux rest []
      else pySplitCommaAux rest (c :: acc)

/-- Python `str.split(',')`: split at every comma, keeping empty fields; the
empty string yields `[""]`. -/
def pySplitComma (s : String) : List String :=
  pySplitCommaAux s.data []

/-- The arity-normalisation prefix of each `add_relationships` iteration:
comma-split, strip each field, and invoke reconstruction unless exactly three
fields result.  The Boolean records whether reconstruction was invoked. -/
def prepare_triple (oracle : Oracle) (raw : String) : List (Option String) × Bool :=
  let fields := (pySplitComma raw).map pyStrip
  if fields.length ≠ 3 then (reconstruct_relationship oracle fields, true)
  else (fields.map some, false)

/-- One endpoint iteration of the node loop in `add_relationships`: if the
endpoint entity's hash is not yet a node, create it with `type='entity'`,
`weight=1`, record it in `relationship_nodes` and collect its hash. -/
def relEndpointStep (s : PState × List HashId) (e : Entity) : PState × List HashId :=
  if s.1.G.has_node e.hash_id then s
  else ({ s.1 with G := s.1.G.add_node e.hash_id .entity 1,
                   relationship_nodes := s.1.relationship_nodes ++ [e] },
        s.2 ++ [e.hash_id])

/-- The edge loop body of `add_relationships`: create an absent edge with
weight 1, increment a present one. -/
def add_edge_or_inc (G : Graph) (u v : HashId) : Graph :=
  if G.has_edge u v then G.incEdge u v else G.add_edge u v 1

/-- One iteration of the loop in `Graph_pipeline.add_relationships`.  In the
merge branch Python mutates the one `Relationship` object aliased by both
`self.relationship` and `self.relationship_lookup`, so both views are updated.
The node loop `for node in [source, target, relationship]` is unrolled: the
membership test `node in [source, target]` is true exactly for the two
endpoint entities and false for the relationship object (whose `__eq__` with
a non-`Relationship` returns `False`). -/
def add_one_relationship (oracle : Oracle) (text_hash_id : String)
    (acc : PState × List HashId) (raw : String) : PState × List HashId :=
  let st := acc.1
  let out := acc.2
  let trip := (prepare_triple oracle raw).1
  let rel := Relationship.ofTuple trip text_hash_id
  let h := rel.hash_id
  if lookupContains st.relationship_lookup h then
    let upd := fun (r : Relationship) =>
      if r.hash_id = h then r.add (.ofStr rel.raw_context) else r
    ({ st with relationship := st.relationship.map upd,
               relationship_lookup := st.relationship_lookup.map (fun p => (p.1, upd p.2)) },
     out)
  else
    let st := { st with relationship := st.relationship ++ [rel],
                        relationship_lookup := st.relationship_lookup ++ [(h, rel)] }
    let s := relEndpointStep (st, out) rel.source
    let s := relEndpointStep s rel.target
    let st := s.1
    let st := if st.G.has_node h then st
              else { st with G := st.G.add_node h .relationship 1 }
    let G := add_edge_or_inc st.G rel.source.hash_id h
    let G := add_edge_or_inc G h rel.target.hash_id
    ({ st with G := G }, s.2)

/-- `Graph_pipeline.add_relationships`. -/
def add_relationships (st : PState) (oracle : Oracle) (relationships : List String)
    (text_hash_id : String) : PState × List HashId :=
  relationships.foldl (add_one_relationship oracle text_hash_id) (st, [])

/-! ### One decomposition output and a whole build -/

structure OutputRec where
  semantic_unit : String
  entities : List String
  relationships : List String

/-- The body of `Graph_pipeline.graph_tasks` for one element of a response's
`Output` list: add the semantic unit, the entities, the relationships, then
link the semantic unit to every collected entity hash. -/
def process_output (oracle : Oracle) (text_hash_id : String) (st : PState)
    (o : OutputRec) : PState :=
  let p := add_semantic_unit st o.semantic_unit text_hash_id
  let q := add_entities p.1 o.entities text_hash_id
  let r := add_relationships q.1 oracle o.relationships text_hash_id
  add_semantic_belongings r.1 p.2 (q.2 ++ r.2)

structure DataUnit where
  text_hash_id : String
  outputs : List OutputRec

/-- `Graph_pipeline.graph_tasks` over one text unit's decomposition record. -/
def graph_tasks (oracle : Oracle) (st : PState) (d : DataUnit) : PState :=
  d.outputs.foldl (process_output oracle d.text_hash_id) st

/-- `Graph_pipeline.build_graph`: the per-unit tasks mutate the one shared
state; cooperative scheduling admits only whole-operation interleavings, of
which the sequential fold is the canonical schedule. -/
def build_graph (oracle : Oracle) (st : PState) (data : List DataUnit) : PState :=
  data.foldl (graph_tasks oracle) st

/-! ### Persistence with the end-of-stage consistency assertion
(`Graph_pipeline.save_semantic_units` / `save_entities` / `save_relationships`
/ `save`).  A failed `assert` is an `Except.error`; the lazily assigned
`human_readable_id` and the `embedding`/`insert` placeholders carry no
information the claims mention and are omitted from the record. -/

structure NodeRecord where
  hash_id : HashId
  type : NType
  context : String
  text_hash_id : String
  weight : Nat
deriving DecidableEq, Repr

def Semantic_unit.record (G : Graph) (su : Semantic_unit) : NodeRecord :=
  ⟨su.hash_id, .semantic_unit, su.raw_context, su.text_hash_id, G.weightOf su.hash_id⟩

def Entity.record (G : Graph) (e : Entity) : NodeRecord :=
  ⟨e.hash_id, .entity, e.raw_context, e.text_hash_id, G.weightOf e.hash_id⟩

def Relationship.record (G : Graph) (r : Relationship) : NodeRecord :=
  ⟨r.hash_id, .relationship, r.raw_context, r.text_hash_id, G.weightOf r.hash_id⟩

def save_semantic_units (st : PState) : Except String (List NodeRecord) :=
  let semantic_units := st.semantic_units.map (Semantic_unit.record st.G)
  if semantic_units.length = st.G.countType .semantic_unit then .ok semantic_units
  else .error "The number of semantic units is not equal to the number of nodes in the graph."

def save_entities (st : PState) : Except String (List NodeRecord) :=
  let entities := st.entities.map (Entity.record st.G)
      ++ st.relationship_nodes.map (Entity.record st.G)
  if entities.length = st.G.countType .entity then .ok entities
  else .error "The number of entities is not equal to the number of nodes in the graph."

def save_relationships (st : PState) : Except String (List NodeRecord) :=
  let relationships := st.relationship.map (Relationship.record st.G)
  if relationships.length = st.G.countType .relationship then .ok relationships
  else .error "The number of relationships is not equal to the number of edges in the graph."

/-- `Graph_pipeline.save`: all three record lists are computed, each behind its
assertion, before any parquet write happens; an assertion failure therefore
raises before any record is persisted. -/
def save (st : PState) : Except String (List NodeRecord × List NodeRecord × List NodeRecord) := do
  let semantic_units ← save_semantic_units st
  let entities ← save_entities st
  let relationships ← save_relationships st
  return (semantic_units, entities, relationships)

/-! ### The error-caching decorators (`NodeRAG/logging/error.py`) -/

/-- A wrapped LLM call's return value as the decorators see it: a string, a
list (embeddings), or any other structured object (a dict, `None`, ...). -/
inductive PyVal where
  | str (s : String)
  | list (n : Nat)
  | other
deriving DecidableEq, Repr

def pyLower (s : String) : String := String.mk (s.data.map Char.toLower)

def isPrefixList : List Char → List Char → Bool
  | [], _ => true
  | _ :: _, [] => false
  | a :: as, b :: bs => a = b && isPrefixList as bs

def strHasAux (nd : List Char) : List Char → Bool
  | [] => nd.isEmpty
  | c :: rest => isPrefixList nd (c :: rest) || strHasAux nd rest

/-- Python `needle in hay` on strings. -/
def strHas (hay needle : String) : Bool :=
  strHasAux needle.data hay.data

/-- The `is_error` classification of `cache_error`/`cache_error_async`: any of
the fixed case-insensitive signals, or a body shorter than 100 characters.
(The `"'error':"` signal of the source is subsumed by `"error"` but kept.) -/
def is_error_response (response : String) : Bool :=
  let l := pyLower response
  strHas l "'error':" || strHas l "error" || strHas l "exception" ||
  strHas l "failed" || strHas l "authentication" || strHas l "rate limit" ||
  strHas l "api key" || strHas l "unauthorized" || strHas l "forbidden" ||
  response.length < 100

/-- The call's `input` positional argument: a dict of string fields (the
pipeline passes `{'query': ..., 'response_format': ...}`), or `None`. -/
abbrev InputDict := List (String × String)

/-- `input_data.pop('response_format')` before caching. -/
def stripResponseFormat (d : InputDict) : InputDict :=
  List.filter (fun p => ¬ p.1 = "response_format") d

/-- What one wrapped call does with its response: pass it through unchanged,
append `{input, meta_data}` to the cache file and return `'Error cached'`, or
raise. -/
inductive CEResult where
  | ret (v : PyVal)
  | cached (entry : InputDict × String)
  | raised (msg : String)
deriving DecidableEq, Repr

/-- Python truthiness of `kwargs.get('cache_path')`: absent and `''` are both
falsy. -/
def truthyPath : Option String → Bool
  | none => false
  | some s => ¬ s = ""

/-- The `cache_error` decorator's wrapper around one completed call: `response`
is the wrapped function's return value, `input` the positional input payload,
`cache_path`/`meta_data` the keyword arguments.  Note the source's
`if response == 'Error cached': return response else: raise` sits at the level
of `if is_error:` — inside the `cache_path` truthiness guard but OUTSIDE the
classification — so with a truthy `cache_path` every string response that was
not just cached is raised, classified or not. -/
def cache_error (response : PyVal) (input : InputDict) (cache_path : Option String)
    (meta_data : Option String) : CEResult :=
  match response with
  | .list n => .ret (.list n)
  | .str s =>
      if truthyPath cache_path then
        if is_error_response s then
          match meta_data with
          | some md => .cached (stripResponseFormat input, md)
          | none =>
              if s = "Error cached" then .ret (.str s)
              else .raised ("LLM Error: " ++ s)
        else
          if s = "Error cached" then .ret (.str s)
          else .raised ("LLM Error: " ++ s)
      else .ret (.str s)
  | .other => .ret .other

/-- The `cache_error_async` decorator's wrapper.  It differs from the sync one:
the early `isinstance(response, list)` return is absent (a list simply falls
through the `isinstance(response, str)` test), the cached branch re-checks
`cache_path` for `None` (already implied by its truthiness), and — unlike the
sync decorator — its `if response == 'Error cached': ... else: raise` sits
INSIDE `if is_error:`, so a non-classified string falls through and is
returned. -/
def cache_error_async (response : PyVal) (input : InputDict)
    (cache_path : Option String) (meta_data : Option String) : CEResult :=
  match response with
  | .str s =>
      if truthyPath cache_path then
        if is_error_response s then
          match meta_data with
          | some md =>
              match cache_path with
              | some _ => .cached (stripResponseFormat input, md)
              | none =>
                  if s = "Error cached" then .ret (.str s)
                  else .raised ("LLM Error: " ++ s)
          | none =>
              if s = "Error cached" then .ret (.str s)
              else .raised ("LLM Error: " ++ s)
        else .ret (.str s)
      else .ret (.str s)
  | v => .ret v

/-! ### The orchestration client (`NodeRAG/LLM/LLM_route.py`, `API_client`) -/

/-- The configuration dict as `API_client.__init__` reads it.  Only
`request_delay` and `rate_limit` are ever read; `max_concurrent` stands for a
concurrency-bound key that a configurable implementation would read and that
the dict may well carry — `__init__` ignores it. -/
structure ModelConfig where
  request_delay : Option ℚ
  rate_limit : Option ℚ
  max_concurrent : Option Nat
deriving Repr

/-- The state `API_client.__init__` builds: the inter-request delay (explicit
`request_delay`, else `60/rate_limit` with `rate_limit` defaulting to 10 and
guarded against non-positive values by a 6-second fallback) and the semaphore
bound, which the source sets to the literal `asyncio.Semaphore(1)`. -/
structure APIClient where
  request_delay : ℚ
  semaphoreBound : Nat
  last_request_time : ℚ
deriving Repr

def APIClient.init (config : ModelConfig) : APIClient :=
  let d := match config.request_delay with
    | some d => d
    | none =>
        let rate_limit := config.rate_limit.getD 10
        if rate_limit > 0 then 60 / rate_limit else 6
  ⟨d, 1, 0⟩

/-- The lock-protected critical section of `API_client.__call__`, in abstract
real time: entered at clock time `arrival` with shared state `last` (the last
recorded request time), it sleeps `request_delay - (arrival - last)` when the
elapsed time is short, then re-reads the clock (`eps ≥ 0` is the sleep
overshoot plus the second `time.time()` drift) and stores and returns that
dispatch time. -/
def paceDispatch (d last arrival eps : ℚ) : ℚ :=
  (if arrival - last < d then last + d else arrival) + eps

/-- Dispatch times of a serialized sequence of `__call__` critical sections
(serialization is what `asyncio.Lock` plus the single event loop provide):
each element of `calls` is one call's `(arrival, eps)`. -/
def paceTrace (d : ℚ) : ℚ → List (ℚ × ℚ) → List ℚ
  | _, [] => []
  | last, (a, e) :: rest =>
      let t := paceDispatch d last a e
      t :: paceTrace d t rest

/-- The synchronous `API_client.request` path: the delay check reads the shared
`last_request_time` WITHOUT the lock, dispatches, and only after the blocking
`predict` returns does it write `last_request_time`.  Its dispatch time as a
function of the (possibly stale) value it read. -/
def syncDispatch (d last now : ℚ) : ℚ :=
  if now - last < d then now + (d - (now - last)) else now

/-! ### `safe_json_parse` (`NodeRAG/utils/json_parser.py`) and a model of
`json.loads`.  Parse failure (Python's `json.JSONDecodeError`, a subclass of
`ValueError` and hence caught by the function) is `none`. -/

/-- A parsed JSON value; numbers are kept exactly as `mantissa × 10 ^ exp`. -/
inductive JVal where
  | jnull
  | jbool (b : Bool)
  | jnum (mantissa : Int) (exp10 : Int)
  | jstr (s : String)
  | jarr (xs : List JVal)
  | jobj (kvs : List (String × JVal))

/-- Whether a value is a dict or a list — what the function's own signature
`Optional[dict | list]` admits. -/
def JVal.isContainer : JVal → Bool
  | .jarr _ => true
  | .jobj _ => true
  | _ => false

def jsonWs (c : Char) : Bool :=
  c = ' ' ∨ c = '\t' ∨ c = '\n' ∨ c = '\x0d'

def skipWs (l : List Char) : List Char := l.dropWhile jsonWs

def hexVal (c : Char) : Option Nat :=
  if '0' ≤ c ∧ c ≤ '9' then some (c.toNat - '0'.toNat)
  else if 'a' ≤ c ∧ c ≤ 'f' then some (c.toNat - 'a'.toNat + 10)
  else if 'A' ≤ c ∧ c ≤ 'F' then some (c.toNat - 'A'.toNat + 10)
  else none

/-- The body of a JSON string after the opening quote, with the standard
escapes. -/
def parseStrAux : List Char → List Char → Option (String × List Char)
  | [], _ => none
  | c :: rest, acc =>
      if c = '"' then some (String.mk acc.reverse, rest)
      else if c = '\\' then
        match rest with
        | [] => none
        | e :: rest2 =>
            if e = '"' then parseStrAux rest2 ('"' :: acc)
            else if e = '\\' then parseStrAux rest2 ('\\' :: acc)
            else if e = '/' then parseStrAux rest2 ('/' :: acc)
            else if e = 'n' then parseStrAux rest2 ('\n' :: acc)
            else if e = 't' then parseStrAux rest2 ('\t' :: acc)
            else if e = 'r' then parseStrAux rest2 ('\x0d' :: acc)
            else if e = 'b' then parseStrAux rest2 ('\x08' :: acc)
            else if e = 'f' then parseStrAux rest2 ('\x0c' :: acc)
            else if e = 'u' then
              match rest2 with
              | h1 :: h2 :: h3 :: h4 :: rest3 =>
                  match hexVal h1, hexVal h2, hexVal h3, hexVal h4 with
                  | some v1, some v2, some v3, some v4 =>
                      parseStrAux rest3
                        (Char.ofNat (((v1 * 16 + v2) * 16 + v3) * 16 + v4) :: acc)
                  | _, _, _, _ => none
              | _ => none
            else none
      else parseStrAux rest (c :: acc)

def isDigit (c : Char) : Bool := '0' ≤ c ∧ c ≤ '9'

def takeDigits : List Char → List Char × List Char
  | [] => ([], [])
  | c :: rest =>
      if isDigit c then
        let p := takeDigits rest
        (c :: p.1, p.2)
      else ([], c :: rest)

def digitsToNat (l : List Char) : Nat :=
  l.foldl (fun acc c => acc * 10 + (c.toNat - '0'.toNat)) 0

/-- The optional exponent and final assembly of a JSON number. -/
def parseNumTail (neg : Bool) (ipart fpart : List Char) (l3 : List Char) :
    Option (JVal × List Char) :=
  let expRes : Option (Int × List Char) := match l3 with
    | e :: rest =>
        if e = 'e' ∨ e = 'E' then
          let p := match rest with
            | '-' :: r => ((-1 : Int), r)
            | '+' :: r => ((1 : Int), r)
            | _ => ((1 : Int), rest)
          match takeDigits p.2 with
          | ([], _) => none
          | (es, rest3) => some (p.1 * (digitsToNat es : Int), rest3)
        else some (0, l3)
    | [] => some (0, l3)
  match expRes with
  | none => none
  | some (ex, l4) =>
      let mag : Int := digitsToNat (ipart ++ fpart)
      let m : Int := if neg then -mag else mag
      some (.jnum m (ex - (fpart.length : Int)), l4)

/-- A JSON number: `-? (0 | [1-9][0-9]*) (. [0-9]+)? ([eE] [+-]? [0-9]+)?`. -/
def parseNumber (l : List Char) : Option (JVal × List Char) :=
  let p := match l with
    | '-' :: rest => (true, rest)
    | _ => (false, l)
  let neg := p.1
  match takeDigits p.2 with
  | ([], _) => none
  | (d :: ds, l2) =>
      if d = '0' ∧ ds ≠ [] then none
      else
        let ipart := d :: ds
        match l2 with
        | '.' :: rest =>
            (match takeDigits rest with
             | ([], _) => none
             | (fs, rest2) => parseNumTail neg ipart fs rest2)
        | _ => parseNumTail neg ipart [] l2

mutual

/-- One JSON value, fuel-bounded (`fuel ≥` nesting depth suffices). -/
def parseVal : Nat → List Char → Option (JVal × List Char)
  | 0, _ => none
  | fuel + 1, l =>
      match skipWs l with
      | [] => none
      | c :: rest =>
          if c = '{' then
            match skipWs rest with
            | '}' :: rest2 => some (.jobj [], rest2)
            | l2 => (parseMembers fuel l2).map (fun p => (.jobj p.1, p.2))
          else if c = '[' then
            match skipWs rest with
            | ']' :: rest2 => some (.jarr [], rest2)
            | l2 => (parseItems fuel l2).map (fun p => (.jarr p.1, p.2))
          else if c = '"' then
            (parseStrAux rest []).map (fun p => (.jstr p.1, p.2))
          else if c = 't' then
            match rest with
            | 'r' :: 'u' :: 'e' :: rest2 => some (.jbool true, rest2)
            | _ => none
          else if c = 'f' then
            match rest with
            | 'a' :: 'l' :: 's' :: 'e' :: rest2 => some (.jbool false, rest2)
            | _ => none
          else if c = 'n' then
            match rest with
            | 'u' :: 'l' :: 'l' :: rest2 => some (.jnull, rest2)
            | _ => none
          else parseNumber (c :: rest)

/-- Non-empty `,`-separated item list of an array, then `]`. -/
def parseItems : Nat → List Char → Option (List JVal × List Char)
  | 0, _ => none
  | fuel + 1, l =>
      match parseVal fuel l with
      | none => none
      | some (v, rest) =>
          match skipWs rest with
          | ',' :: rest2 =>
              (parseItems fuel rest2).map (fun p => (v :: p.1, p.2))
          | ']' :: rest2 => some ([v], rest2)
          | _ => none

/-- Non-empty `"key": value` member list of an object, then `}`. -/
def parseMembers : Nat → List Char → Option (List (String × JVal) × List Char)
  | 0, _ => none
  | fuel + 1, l =>
      match skipWs l with
      | '"' :: rest =>
          match parseStrAux rest [] with
          | none => none
          | some (k, rest2) =>
              match skipWs rest2 with
              | ':' :: rest3 =>
                  match parseVal fuel rest3 with
                  | none => none
                  | some (v, rest4) =>
                      match skipWs rest4 with
                      | ',' :: rest5 =>
                          (parseMembers fuel rest5).map (fun p => ((k, v) :: p.1, p.2))
                      | '}' :: rest5 => some ([(k, v)], rest5)
                      | _ => none
              | _ => none
      | _ => none

end

/-- Model of Python `json.loads`: parse one value, then require only
whitespace to the end of input. -/
def jsonLoads (s : String) : Option JVal :=
  match parseVal (s.length + 1) s.data with
  | some (v, rest) => if (skipWs rest).isEmpty then some v else none
  | none => none

def pyStartsWith (s pre : String) : Bool := isPrefixList pre.data s.data

def pyEndsWith (s suf : String) : Bool :=
  isPrefixList suf.data.reverse s.data.reverse

def dropLeftStr (s : String) (n : Nat) : String := String.mk (s.data.drop n)

def dropRightStr (s : String) (n : Nat) : String :=
  String.mk (s.data.take (s.data.length - n))

/-- `.replace(' ', '').replace('\xa0', '')`: remove the two invisible
unicode characters wherever they occur. -/
def removeInvisible (s : String) : String :=
  String.mk (s.data.filter (fun c => ¬ (c = Char.ofNat 0x202F ∨ c = Char.ofNat 0xA0)))

/-- The markdown-fence stripping step: `startswith`-guarded removal of a
leading ```` ```json ```` or ```` ``` ```` (a `replace(..., '', 1)` whose first
occurrence is the prefix itself) and, after re-stripping, an `endswith`-guarded
`rsplit('```', 1)[0]` whose last occurrence is the suffix itself. -/
def fenceStrip (cleaned : String) : String :=
  if pyStartsWith cleaned "```json" then
    let c := pyStrip (dropLeftStr cleaned 7)
    if pyEndsWith c "```" then pyStrip (dropRightStr c 3) else c
  else if pyStartsWith cleaned "```" then
    let c := pyStrip (dropLeftStr cleaned 3)
    if pyEndsWith c "```" then pyStrip (dropRightStr c 3) else c
  else cleaned

/-- The argument domain `safe_json_parse` is claimed over: `None`, a pandas
missing value, or a string. -/
inductive PyInput where
  | noneV
  | na
  | str (s : String)

/-- `safe_json_parse`: `None`/NA to `None`; otherwise clean invisible
characters, strip, return `None` on emptiness, strip markdown fences, and
parse — with every parse error caught and mapped to `None`. -/
def safe_json_parse : PyInput → Option JVal
  | .noneV => none
  | .na => none
  | .str s =>
      let cleaned := pyStrip (removeInvisible s)
      if cleaned = "" then none
      else jsonLoads (fenceStrip cleaned)

/-- Well-formedness of the shared graph: every node weight is at least 1 and
no hash id keys two node entries. -/
def GraphWF (G : Graph) : Prop :=
  (∀ p ∈ G.nodes, 1 ≤ p.2.weight) ∧ (G.nodes.map Prod.fst).Nodup

/-- The inductive invariant of a fresh construction run: per-type node counts
match the record lists the save stage will persist, relationship-typed nodes
are exactly the lookup keys, and entity/semantic-unit nodes are keyed by
2-part content digests (never by a relationship's endpoint-pair digest). -/
structure Inv (st : PState) : Prop where
  su_count : st.G.countType .semantic_unit = st.semantic_units.length
  ent_count : st.G.countType .entity =
    st.entities.length + st.relationship_nodes.length
  rel_count : st.G.countType .relationship = st.relationship.length
  rel_lookup : ∀ k, st.G.nodeType k = some .relationship ↔
    lookupContains st.relationship_lookup k = true
  id_shape : ∀ p ∈ st.G.nodes,
    (p.2.type = NType.entity ∨ p.2.type = NType.semantic_unit) →
    ∃ a b, p.1 = HashId.dig2 a b

/-! ## Claims -/

theorem nodes_add_edge (G : Graph) (u v : HashId) (w : Nat) :
    (G.add_edge u v w).nodes = G.nodes := rfl

theorem nodes_incEdge (G : Graph) (u v : HashId) :
    (G.incEdge u v).nodes = G.nodes := rfl

theorem has_node_false_iff (G : Graph) (h : HashId) :
    G.has_node h = false ↔ G.nodeAttr h = none := by
  unfold Graph.has_node Graph.nodeAttr
  rcases hfind : List.find? (fun p : HashId × NodeAttr => decide (p.1 = h)) G.nodes with _ | e
  · rw [List.find?_eq_none] at hfind
    simp only [Option.map_none', iff_true]
    rw [List.any_eq_false]
    exact hfind
  · have he := List.find?_some hfind
    simp only [Option.map_some', reduceCtorEq, iff_false, Bool.not_eq_false]
    rw [List.any_eq_true]
    exact ⟨e, List.mem_of_find?_eq_some hfind, he⟩

theorem has_node_true_iff (G : Graph) (h : HashId) :
    G.has_node h = true ↔ ∃ a, G.nodeAttr h = some a := by
  rw [← Bool.not_eq_false, ← Option.isSome_iff_exists, Option.isSome_iff_ne_none]
  exact not_congr (has_node_false_iff G h)

theorem nodeAttr_add_node (G : Graph) (h : HashId) (ty : NType) (w : Nat) (k : HashId) :
    (G.add_node h ty w).nodeAttr k =
      if k = h then some ⟨ty, w⟩ else G.nodeAttr k := by
  unfold Graph.add_node Graph.nodeAttr
  by_cases hk : k = h
  · subst hk
    rw [List.find?_cons_of_pos _ (by simp)]
    simp
  · rw [List.find?_cons_of_neg _ (by simpa using fun he => hk he.symm)]
    simp [hk]

theorem nodeAttr_incWeight (G : Graph) (h k : HashId) :
    (G.incWeight h).nodeAttr k =
      (G.nodeAttr k).map
        (fun a => if k = h then ⟨a.type, a.weight + 1⟩ else a) := by
  unfold Graph.incWeight Graph.nodeAttr
  rw [List.find?_map]
  have hpred : ((fun p : HashId × NodeAttr => decide (p.1 = k)) ∘
      (fun p : HashId × NodeAttr =>
        if p.1 = h then (p.1, NodeAttr.mk p.2.type (p.2.weight + 1)) else p)) =
      (fun p : HashId × NodeAttr => decide (p.1 = k)) := by
    funext p
    by_cases hp : p.1 = h <;> simp [hp]
  rw [hpred, Option.map_map, Option.map_map]
  rcases hfind : List.find? (fun p : HashId × NodeAttr => decide (p.1 = k)) G.nodes with _ | e
  · rfl
  · have he : e.1 = k := by
      have := List.find?_some hfind
      simpa using this
    simp only [Option.map_some', Function.comp_apply]
    by_cases hk : k = h
    · have : e.1 = h := by rw [he, hk]
      simp [this, hk]
    · have : ¬ e.1 = h := by rw [he]; exact hk
      simp [this, hk]

theorem numNodes_incWeight (G : Graph) (h : HashId) :
    (G.incWeight h).numNodes = G.numNodes := by
  unfold Graph.incWeight Graph.numNodes
  simp

theorem numNodes_add_node (G : Graph) (h : HashId) (ty : NType) (w : Nat) :
    (G.add_node h ty w).numNodes = G.numNodes + 1 := by
  unfold Graph.add_node Graph.numNodes
  simp [Nat.add_comm]

theorem countType_incWeight (G : Graph) (h : HashId) (ty : NType) :
    (G.incWeight h).countType ty = G.countType ty := by
  unfold Graph.incWeight Graph.countType
  simp only
  induction G.nodes with
  | nil => rfl
  | cons p l ih =>
      by_cases hp : p.1 = h <;> by_cases hty : p.2.type = ty <;>
        simp [hp, hty, List.filter_cons, ih]

theorem countType_add_node (G : Graph) (h : HashId) (ty ty' : NType) (w : Nat) :
    (G.add_node h ty w).countType ty' =
      G.countType ty' + (if ty = ty' then 1 else 0) := by
  unfold Graph.add_node Graph.countType
  by_cases hty : ty = ty' <;> simp [List.filter_cons, hty, Nat.add_comm]

theorem nodeType_add_node (G : Graph) (h : HashId) (ty : NType) (w : Nat) (k : HashId) :
    (G.add_node h ty w).nodeType k =
      if k = h then some ty else G.nodeType k := by
  unfold Graph.nodeType
  rw [nodeAttr_add_node]
  by_cases hk : k = h <;> simp [hk]

theorem nodeType_incWeight (G : Graph) (h k : HashId) :
    (G.incWeight h).nodeType k = G.nodeType k := by
  unfold Graph.nodeType
  rw [nodeAttr_incWeight]
  rcases G.nodeAttr k with _ | a
  · rfl
  · by_cases hk : k = h <;> simp [hk]

theorem weightOf_incWeight_present (G : Graph) (h : HashId) (a : NodeAttr)
    (ha : G.nodeAttr h = some a) :
    (G.incWeight h).weightOf h = G.weightOf h + 1 := by
  unfold Graph.weightOf
  rw [nodeAttr_incWeight, ha]
  simp

theorem graphWF_incWeight (G : Graph) (h : HashId) (hwf : GraphWF G) :
    GraphWF (G.incWeight h) := by
  obtain ⟨hw, hnd⟩ := hwf
  constructor
  · intro p hp
    unfold Graph.incWeight at hp
    simp only [List.mem_map] at hp
    obtain ⟨q, hq, hfq⟩ := hp
    by_cases hq1 : q.1 = h
    · rw [← hfq]
      simp only [hq1, if_pos]
      have := hw q hq
      simp
    · rw [← hfq]
      simp only [hq1, if_neg, not_false_iff]
      exact hw q hq
  · unfold Graph.incWeight
    simp only
    have : (G.nodes.map
        (fun p : HashId × NodeAttr =>
          if p.1 = h then (p.1, NodeAttr.mk p.2.type (p.2.weight + 1)) else p)).map
          Prod.fst = G.nodes.map Prod.fst := by
      rw [List.map_map]
      apply List.map_congr_left
      intro p _
      by_cases hp : p.1 = h <;> simp [hp]
    rw [this]
    exact hnd

theorem graphWF_add_node (G : Graph) (h : HashId) (ty : NType)
    (hwf : GraphWF G) (habs : G.has_node h = false) :
    GraphWF (G.add_node h ty 1) := by
  obtain ⟨hw, hnd⟩ := hwf
  constructor
  · intro p hp
    unfold Graph.add_node at hp
    simp only [List.mem_cons] at hp
    rcases hp with hp | hp
    · rw [hp]
    · exact hw p hp
  · unfold Graph.add_node
    simp only [List.map_cons]
    refine List.Nodup.cons ?_ hnd
    intro hmem
    unfold Graph.has_node at habs
    rw [List.any_eq_false] at habs
    simp only [List.mem_map] at hmem
    obtain ⟨q, hq, hq1⟩ := hmem
    have hfalse := habs q hq
    simp only [decide_eq_true_eq] at hfalse
    exact hfalse hq1

/-- The common create-or-increment step both `add_semantic_unit` and
`add_entities` perform on the graph. -/
theorem createOrInc_core (G : Graph) (h : HashId) (ty : NType) (hwf : GraphWF G) :
    (G.has_node h = true →
        (G.incWeight h).numNodes = G.numNodes ∧
        (G.incWeight h).weightOf h = G.weightOf h + 1 ∧
        GraphWF (G.incWeight h)) ∧
    (G.has_node h = false →
        (G.add_node h ty 1).numNodes = G.numNodes + 1 ∧
        (G.add_node h ty 1).nodeAttr h = some ⟨ty, 1⟩ ∧
        GraphWF (G.add_node h ty 1)) := by
  constructor
  · intro hpres
    obtain ⟨a, ha⟩ := (has_node_true_iff G h).mp hpres
    exact ⟨numNodes_incWeight G h, weightOf_incWeight_present G h a ha,
      graphWF_incWeight G h hwf⟩
  · intro habs
    refine ⟨numNodes_add_node G h ty 1, ?_, graphWF_add_node G h ty hwf habs⟩
    rw [nodeAttr_add_node]
    simp

theorem genidRel_fsetPair_ne_dig2 (a b : HashId) (c d : String) :
    genidRel (fsetPair a b) ≠ .dig2 c d := by
  unfold fsetPair
  by_cases hab : a = b
  · simp [hab, genidRel]
  · simp only [hab, if_false]
    by_cases hlt : a.cmp b = .lt
    · simp [hlt, genidRel]
    · simp [hlt, genidRel]

/-- C1: relationship identity is undirected — for all strings `A`, `B` and
relation texts `r1`, `r2`, the relationships built from `[A, r1, B]` and from
`[B, r2, A]` with the same owning text id have the same `hash_id`, because the
identity is the unordered pair of the endpoint entity hashes. -/
theorem relationship_identity_undirected (A B r1 r2 text_hash_id : String) :
    (Relationship.ofTuple [some A, some r1, some B] text_hash_id).hash_id =
      (Relationship.ofTuple [some B, some r2, some A] text_hash_id).hash_id := by
  have h1 : (Relationship.ofTuple [some A, some r1, some B] text_hash_id).hash_id =
      genidRel (fsetPair (HashId.dig2 A text_hash_id) (HashId.dig2 B text_hash_id)) := rfl
  have h2 : (Relationship.ofTuple [some B, some r2, some A] text_hash_id).hash_id =
      genidRel (fsetPair (HashId.dig2 B text_hash_id) (HashId.dig2 A text_hash_id)) := rfl
  rw [h1, h2, fsetPair_comm]

theorem reconstruct_length (oracle : Oracle) (fields : List String) :
    (reconstruct_relationship oracle fields).length = 3 := by
  unfold reconstruct_relationship
  match oracle fields with
  | .obj s r t => simp
  | .nonDict =>
      simp only
      split
      · rename_i hge
        simp [List.length_take, Nat.min_eq_left hge]
      · rename_i hlt
        simp only [List.length_append, List.length_map, List.length_replicate]
        omega

/-- C6: arity repair — whenever the comma-split (trimmed) raw relationship
string does not have exactly 3 fields, the reconstruction sub-call is invoked,
and whatever its response (structured or not), the triple handed on to
relationship construction has exactly 3 fields. -/
theorem arity_repair (oracle : Oracle) (raw : String) :
    ((prepare_triple oracle raw).1).length = 3 ∧
      ((prepare_triple oracle raw).2 = true ↔
        ((pySplitComma raw).map pyStrip).length ≠ 3) := by
  unfold prepare_triple
  by_cases h : (pySplitComma raw).length = 3
  · simp [h, List.length_map]
  · simp [h, reconstruct_length, List.length_map]

theorem has_node_add_node (G : Graph) (h : HashId) (ty : NType) (w : Nat) (k : HashId) :
    (G.add_node h ty w).has_node k = (decide (h = k) || G.has_node k) := by
  unfold Graph.add_node Graph.has_node
  simp [List.any_cons]

theorem nodeType_some_has_node (G : Graph) (k : HashId) (ty : NType)
    (h : G.nodeType k = some ty) : G.has_node k = true := by
  unfold Graph.nodeType at h
  rcases ha : G.nodeAttr k with _ | a
  · rw [ha] at h; exact absurd h (by simp)
  · exact (has_node_true_iff G k).mpr ⟨a, ha⟩

theorem nodeType_none_of_not_has_node (G : Graph) (k : HashId)
    (h : G.has_node k = false) : G.nodeType k = none := by
  unfold Graph.nodeType
  rw [(has_node_false_iff G k).mp h]
  rfl

theorem nodeAttr_mem (G : Graph) (k : HashId) (a : NodeAttr)
    (h : G.nodeAttr k = some a) : (k, a) ∈ G.nodes := by
  unfold Graph.nodeAttr at h
  rcases hf : G.nodes.find? (fun p => decide (p.1 = k)) with _ | e
  · rw [hf] at h; exact absurd h (by simp)
  · rw [hf] at h
    simp only [Option.map_some', Option.some.injEq] at h
    have hk : e.1 = k := by simpa using List.find?_some hf
    have : e = (k, a) := by
      cases e; simp only at hk h; rw [hk, h]
    exact this ▸ List.mem_of_find?_eq_some hf

theorem lookupContains_map_val (l : List (HashId × Relationship))
    (f : Relationship → Relationship) (k : HashId) :
    lookupContains (l.map (fun p => (p.1, f p.2))) k = lookupContains l k := by
  unfold lookupContains
  rw [List.any_map]
  rfl

theorem lookupContains_append_single (l : List (HashId × Relationship))
    (h : HashId) (r : Relationship) (k : HashId) :
    lookupContains (l ++ [(h, r)]) k = (lookupContains l k || decide (h = k)) := by
  unfold lookupContains
  rw [List.any_append]
  simp [List.any_cons]

theorem nodes_add_edge_or_inc (G : Graph) (u v : HashId) :
    (add_edge_or_inc G u v).nodes = G.nodes := by
  unfold add_edge_or_inc
  split <;> rfl

theorem countType_nodes_eq (G G' : Graph) (h : G'.nodes = G.nodes) (ty : NType) :
    G'.countType ty = G.countType ty := by
  unfold Graph.countType
  rw [h]

theorem nodeType_nodes_eq (G G' : Graph) (h : G'.nodes = G.nodes) (k : HashId) :
    G'.nodeType k = G.nodeType k := by
  unfold Graph.nodeType Graph.nodeAttr
  rw [h]

/-- Invariance transport: a state differing only in graph edges (same nodes)
and with identical record lists keeps the invariant. -/
theorem inv_transport (st st' : PState)
    (hn : st'.G.nodes = st.G.nodes)
    (h1 : st'.semantic_units = st.semantic_units)
    (h2 : st'.entities = st.entities)
    (h3 : st'.relationship = st.relationship)
    (h4 : st'.relationship_lookup = st.relationship_lookup)
    (h5 : st'.relationship_nodes = st.relationship_nodes)
    (hinv : Inv st) : Inv st' := by
  refine ⟨?_, ?_, ?_, ?_, ?_⟩
  · rw [countType_nodes_eq st.G st'.G hn, h1]; exact hinv.su_count
  · rw [countType_nodes_eq st.G st'.G hn, h2, h5]; exact hinv.ent_count
  · rw [countType_nodes_eq st.G st'.G hn, h3]; exact hinv.rel_count
  · intro k
    rw [nodeType_nodes_eq st.G st'.G hn, h4]
    exact hinv.rel_lookup k
  · intro p hp
    rw [hn] at hp
    exact hinv.id_shape p hp

theorem inv_empty : Inv PState.empty := by
  refine ⟨rfl, rfl, rfl, ?_, ?_⟩
  · intro k
    constructor
    · intro h; exact absurd h (by simp [Graph.nodeType, Graph.nodeAttr, Graph.empty, PState.empty])
    · intro h; exact absurd h (by simp [lookupContains, PState.empty])
  · intro p hp
    exact absurd hp (by simp [Graph.empty, PState.empty])

theorem inv_add_semantic_unit (st : PState) (su tid : String) (hinv : Inv st) :
    Inv (add_semantic_unit st su tid).1 := by
  unfold add_semantic_unit
  dsimp only
  by_cases hn : st.G.has_node (Semantic_unit.hash_id ⟨su, tid⟩) = true
  · rw [if_pos hn]
    refine ⟨?_, ?_, ?_, ?_, ?_⟩
    · rw [countType_incWeight]; exact hinv.su_count
    · rw [countType_incWeight]; exact hinv.ent_count
    · rw [countType_incWeight]; exact hinv.rel_count
    · intro k
      rw [nodeType_incWeight]
      exact hinv.rel_lookup k
    · intro p hp
      unfold Graph.incWeight at hp
      simp only [List.mem_map] at hp
      obtain ⟨q, hq, hfq⟩ := hp
      intro hty
      have hkey : p.1 = q.1 ∧ p.2.type = q.2.type := by
        by_cases hq1 : q.1 = Semantic_unit.hash_id ⟨su, tid⟩ <;>
          simp [hq1] at hfq <;> rw [← hfq] <;> simp [hq1]
      obtain ⟨hk, ht⟩ := hkey
      rw [hk]
      exact hinv.id_shape q hq (by rw [← ht]; exact hty)
  · have hn' : st.G.has_node (Semantic_unit.hash_id ⟨su, tid⟩) = false :=
      Bool.not_eq_true _ |>.mp hn
    rw [if_neg (by simp [hn'])]
    refine ⟨?_, ?_, ?_, ?_, ?_⟩
    · rw [countType_add_node]
      simp [hinv.su_count]
    · rw [countType_add_node]
      simp [hinv.ent_count]
    · rw [countType_add_node]
      simp [hinv.rel_count]
    · intro k
      rw [nodeType_add_node]
      by_cases hk : k = Semantic_unit.hash_id ⟨su, tid⟩
      · subst hk
        rw [if_pos rfl]
        constructor
        · intro h; exact absurd h (by simp)
        · intro h
          exact absurd (nodeType_some_has_node _ _ _ ((hinv.rel_lookup _).mpr h))
            (by simp [hn'])
      · rw [if_neg hk]
        exact hinv.rel_lookup k
    · intro p hp
      unfold Graph.add_node at hp
      simp only [List.mem_cons] at hp
      rcases hp with hp | hp
      · intro _
        rw [hp]
        exact ⟨su, tid, rfl⟩
      · exact hinv.id_shape p hp

theorem inv_add_one_entity (tid : String) (acc : PState × List HashId) (e : String)
    (hinv : Inv acc.1) : Inv (add_one_entity tid acc e).1 := by
  unfold add_one_entity
  dsimp only
  by_cases hn : acc.1.G.has_node (Entity.hash_id ⟨e, tid⟩) = true
  · rw [if_pos hn]
    refine ⟨?_, ?_, ?_, ?_, ?_⟩
    · rw [countType_incWeight]; exact hinv.su_count
    · rw [countType_incWeight]; exact hinv.ent_count
    · rw [countType_incWeight]; exact hinv.rel_count
    · intro k
      rw [nodeType_incWeight]
      exact hinv.rel_lookup k
    · intro p hp
      unfold Graph.incWeight at hp
      simp only [List.mem_map] at hp
      obtain ⟨q, hq, hfq⟩ := hp
      intro hty
      have hkey : p.1 = q.1 ∧ p.2.type = q.2.type := by
        by_cases hq1 : q.1 = Entity.hash_id ⟨e, tid⟩ <;>
          simp [hq1] at hfq <;> rw [← hfq] <;> simp [hq1]
      obtain ⟨hk, ht⟩ := hkey
      rw [hk]
      exact hinv.id_shape q hq (by rw [← ht]; exact hty)
  · have hn' : acc.1.G.has_node (Entity.hash_id ⟨e, tid⟩) = false :=
      Bool.not_eq_true _ |>.mp hn
    rw [if_neg (by simp [hn'])]
    refine ⟨?_, ?_, ?_, ?_, ?_⟩
    · rw [countType_add_node]
      simp [hinv.su_count]
    · rw [countType_add_node]
      simp only [List.length_append, List.length_cons, List.length_nil]
      have h := hinv.ent_count
      simp only [if_true]
      omega
    · rw [countType_add_node]
      simp [hinv.rel_count]
    · intro k
      rw [nodeType_add_node]
      by_cases hk : k = Entity.hash_id ⟨e, tid⟩
      · subst hk
        rw [if_pos rfl]
        constructor
        · intro h; exact absurd h (by simp)
        · intro h
          exact absurd (nodeType_some_has_node _ _ _ ((hinv.rel_lookup _).mpr h))
            (by simp [hn'])
      · rw [if_neg hk]
        exact hinv.rel_lookup k
    · intro p hp
      unfold Graph.add_node at hp
      simp only [List.mem_cons] at hp
      rcases hp with hp | hp
      · intro _
        rw [hp]
        exact ⟨e, tid, rfl⟩
      · exact hinv.id_shape p hp

theorem inv_add_entities (st : PState) (names : List String) (tid : String)
    (hinv : Inv st) : Inv (add_entities st names tid).1 := by
  unfold add_entities
  suffices h : ∀ (names : List String) (acc : PState × List HashId), Inv acc.1 →
      Inv (names.foldl (add_one_entity tid) acc).1 by
    exact h names (st, []) hinv
  intro names
  induction names with
  | nil => intro acc h; exact h
  | cons e rest ih =>
      intro acc h
      exact ih (add_one_entity tid acc e) (inv_add_one_entity tid acc e h)

theorem inv_add_semantic_belongings (st : PState) (suh : HashId) (hs : List HashId)
    (hinv : Inv st) : Inv (add_semantic_belongings st suh hs) := by
  refine inv_transport st (add_semantic_belongings st suh hs) ?_ rfl rfl rfl rfl rfl hinv
  unfold add_semantic_belongings
  dsimp only
  suffices h : ∀ (hs : List HashId) (G : Graph),
      (hs.foldl (fun G eh =>
        if G.has_edge suh eh then G.incEdge suh eh else G.add_edge suh eh 1) G).nodes
        = G.nodes by
    exact h hs st.G
  intro hs
  induction hs with
  | nil => intro G; rfl
  | cons eh rest ih =>
      intro G
      rw [List.foldl_cons, ih]
      split <;> rfl

theorem relEndpointStep_facts (s : PState × List HashId) (e : Entity) :
    ((relEndpointStep s e).1.G.countType .semantic_unit
        = s.1.G.countType .semantic_unit) ∧
    ((relEndpointStep s e).1.G.countType .relationship
        = s.1.G.countType .relationship) ∧
    ((relEndpointStep s e).1.G.countType .entity + s.1.relationship_nodes.length
        = s.1.G.countType .entity + (relEndpointStep s e).1.relationship_nodes.length) ∧
    (∀ k, (relEndpointStep s e).1.G.nodeType k = some .relationship ↔
        s.1.G.nodeType k = some .relationship) ∧
    (∀ p ∈ (relEndpointStep s e).1.G.nodes,
        p ∈ s.1.G.nodes ∨ (p.1 = e.hash_id ∧ p.2 = ⟨.entity, 1⟩)) ∧
    ((relEndpointStep s e).1.semantic_units = s.1.semantic_units) ∧
    ((relEndpointStep s e).1.entities = s.1.entities) ∧
    ((relEndpointStep s e).1.relationship = s.1.relationship) ∧
    ((relEndpointStep s e).1.relationship_lookup = s.1.relationship_lookup) ∧
    (∀ k, (relEndpointStep s e).1.G.has_node k = true →
        s.1.G.has_node k = true ∨ k = e.hash_id) := by
  unfold relEndpointStep
  by_cases hn : s.1.G.has_node e.hash_id = true
  · rw [if_pos hn]
    refine ⟨rfl, rfl, rfl, fun k => Iff.rfl, fun p hp => Or.inl hp, rfl, rfl, rfl, rfl,
      fun k hk => Or.inl hk⟩
  · have hn' : s.1.G.has_node e.hash_id = false := Bool.not_eq_true _ |>.mp hn
    rw [if_neg (by simp [hn'])]
    refine ⟨?_, ?_, ?_, ?_, ?_, rfl, rfl, rfl, rfl, ?_⟩
    · rw [countType_add_node]; simp
    · rw [countType_add_node]; simp
    · rw [countType_add_node]
      simp only [List.length_append, List.length_cons, List.length_nil, if_true]
      omega
    · intro k
      rw [nodeType_add_node]
      by_cases hk : k = e.hash_id
      · subst hk
        rw [if_pos rfl]
        have hnone := nodeType_none_of_not_has_node s.1.G _ hn'
        rw [hnone]
        simp
      · rw [if_neg hk]
    · intro p hp
      unfold Graph.add_node at hp
      simp only [List.mem_cons] at hp
      rcases hp with hp | hp
      · exact Or.inr (by rw [hp]; exact ⟨rfl, rfl⟩)
      · exact Or.inl hp
    · intro k hk
      rw [has_node_add_node] at hk
      rcases Bool.or_eq_true_iff.mp hk with hk | hk
      · exact Or.inr (by simpa [eq_comm] using hk)
      · exact Or.inl hk

theorem inv_add_one_relationship (oracle : Oracle) (tid : String)
    (acc : PState × List HashId) (raw : String) (hinv : Inv acc.1) :
    Inv (add_one_relationship oracle tid acc raw).1 := by
  unfold add_one_relationship
  dsimp only
  by_cases hl : lookupContains acc.1.relationship_lookup
      (Relationship.ofTuple (prepare_triple oracle raw).1 tid).hash_id = true
  · rw [if_pos hl]
    refine ⟨hinv.su_count, hinv.ent_count, ?_, ?_, hinv.id_shape⟩
    · rw [List.length_map]
      exact hinv.rel_count
    · intro k
      dsimp only
      simp only [lookupContains, List.any_map]
      exact hinv.rel_lookup k
  · have hl' : lookupContains acc.1.relationship_lookup
        (Relationship.ofTuple (prepare_triple oracle raw).1 tid).hash_id = false :=
      Bool.not_eq_true _ |>.mp hl
    rw [if_neg (by simp [hl'])]
    set rel := Relationship.ofTuple (prepare_triple oracle raw).1 tid with hrel
    have hhash : rel.hash_id = genidRel (fsetPair rel.source.hash_id rel.target.hash_id) :=
      rfl
    have hsrc : rel.source.hash_id = HashId.dig2 rel.source.raw_context rel.source.text_hash_id :=
      rfl
    have htgt : rel.target.hash_id = HashId.dig2 rel.target.raw_context rel.target.text_hash_id :=
      rfl
    have hne_dig : ∀ a b : String, rel.hash_id ≠ HashId.dig2 a b := by
      intro a b
      rw [hhash]
      exact genidRel_fsetPair_ne_dig2 _ _ a b
    have hnot_acc : acc.1.G.has_node rel.hash_id = false := by
      by_contra hcon
      have hcon' : acc.1.G.has_node rel.hash_id = true := by
        revert hcon; cases acc.1.G.has_node rel.hash_id <;> simp
      obtain ⟨a, ha⟩ := (has_node_true_iff _ _).mp hcon'
      have hmem := nodeAttr_mem _ _ _ ha
      have hty : acc.1.G.nodeType rel.hash_id = some a.type := by
        unfold Graph.nodeType; rw [ha]; rfl
      rcases hcase : a.type with _ | _ | _
      · exact absurd (hinv.id_shape _ hmem (Or.inr hcase))
          (by rintro ⟨x, y, hxy⟩; exact hne_dig x y hxy)
      · exact absurd (hinv.id_shape _ hmem (Or.inl hcase))
          (by rintro ⟨x, y, hxy⟩; exact hne_dig x y hxy)
      · rw [hcase] at hty
        have := (hinv.rel_lookup _).mp hty
        rw [this] at hl'
        exact absurd hl' (by simp)
    have hfacts1 := relEndpointStep_facts
      ({ acc.1 with relationship := acc.1.relationship ++ [rel],
                    relationship_lookup := acc.1.relationship_lookup ++ [(rel.hash_id, rel)] },
       acc.2) rel.source
    set s1 := relEndpointStep
      ({ acc.1 with relationship := acc.1.relationship ++ [rel],
                    relationship_lookup := acc.1.relationship_lookup ++ [(rel.hash_id, rel)] },
       acc.2) rel.source with hs1
    have hfacts2 := relEndpointStep_facts s1 rel.target
    set s2 := relEndpointStep s1 rel.target with hs2
    have hs2_not : s2.1.G.has_node rel.hash_id = false := by
      by_contra hcon
      have hcon' : s2.1.G.has_node rel.hash_id = true := by
        revert hcon; cases s2.1.G.has_node rel.hash_id <;> simp
      rcases hfacts2.2.2.2.2.2.2.2.2.2 _ hcon' with hk | hk
      · rcases hfacts1.2.2.2.2.2.2.2.2.2 _ hk with hk2 | hk2
        · rw [hk2] at hnot_acc; exact absurd hnot_acc (by simp)
        · exact hne_dig _ _ (hk2.trans hsrc)
      · exact hne_dig _ _ (hk.trans htgt)
    rw [if_neg (by simp [hs2_not])]
    have hnodes4 : (add_edge_or_inc
        (add_edge_or_inc (s2.1.G.add_node rel.hash_id .relationship 1)
          rel.source.hash_id rel.hash_id)
        rel.hash_id rel.target.hash_id).nodes
        = (s2.1.G.add_node rel.hash_id .relationship 1).nodes := by
      rw [nodes_add_edge_or_inc, nodes_add_edge_or_inc]
    refine ⟨?_, ?_, ?_, ?_, ?_⟩
    · dsimp only
      rw [countType_nodes_eq _ _ hnodes4, countType_add_node]
      have h2 := hfacts2.1
      have h1 := hfacts1.1
      have hSU2 := hfacts2.2.2.2.2.2.1
      have hSU1 := hfacts1.2.2.2.2.2.1
      rw [hSU2, hSU1, h2, h1]
      dsimp only
      simpa using hinv.su_count
    · dsimp only
      rw [countType_nodes_eq _ _ hnodes4, countType_add_node]
      have h2 := hfacts2.2.2.1
      have h1 := hfacts1.2.2.1
      have hE2 := hfacts2.2.2.2.2.2.2.1
      have hE1 := hfacts1.2.2.2.2.2.2.1
      rw [hE2, hE1]
      dsimp only at h1 h2 ⊢
      have hc := hinv.ent_count
      have hif : (if NType.relationship = NType.entity then (1 : Nat) else 0) = 0 := by
        simp
      rw [hif]
      omega
    · dsimp only
      rw [countType_nodes_eq _ _ hnodes4, countType_add_node]
      have h2 := hfacts2.2.1
      have h1 := hfacts1.2.1
      have hRel2 := hfacts2.2.2.2.2.2.2.2.1
      have hRel1 := hfacts1.2.2.2.2.2.2.2.1
      rw [hRel2, hRel1, h2, h1]
      dsimp only
      simp [hinv.rel_count]
    · intro k
      dsimp only
      rw [nodeType_nodes_eq _ _ hnodes4, nodeType_add_node]
      have hL2 := hfacts2.2.2.2.2.2.2.2.2.1
      have hL1 := hfacts1.2.2.2.2.2.2.2.2.1
      rw [hL2, hL1]
      dsimp only
      rw [lookupContains_append_single]
      by_cases hk : k = rel.hash_id
      · subst hk
        rw [if_pos rfl]
        simp
      · rw [if_neg hk]
        have hT2 := hfacts2.2.2.2.1 k
        have hT1 := hfacts1.2.2.2.1 k
        rw [hT2, hT1]
        dsimp only
        rw [hinv.rel_lookup k]
        have : decide (rel.hash_id = k) = false := by
          simp only [decide_eq_false_iff_not]
          exact fun hkk => hk hkk.symm
        rw [this]
        simp
    · intro p hp
      dsimp only at hp
      rw [hnodes4] at hp
      unfold Graph.add_node at hp
      simp only [List.mem_cons] at hp
      rcases hp with hp | hp
      · intro hty
        rw [hp] at hty
        simp at hty
      · intro hty
        rcases hfacts2.2.2.2.2.1 p hp with hp2 | hp2
        · rcases hfacts1.2.2.2.2.1 p hp2 with hp3 | hp3
          · exact hinv.id_shape p hp3 hty
          · exact ⟨_, _, hp3.1.trans hsrc⟩
        · exact ⟨_, _, hp2.1.trans htgt⟩

theorem inv_add_relationships (st : PState) (oracle : Oracle) (raws : List String)
    (tid : String) (hinv : Inv st) : Inv (add_relationships st oracle raws tid).1 := by
  unfold add_relationships
  suffices h : ∀ (raws : List String) (acc : PState × List HashId), Inv acc.1 →
      Inv (raws.foldl (add_one_relationship oracle tid) acc).1 by
    exact h raws (st, []) hinv
  intro raws
  induction raws with
  | nil => intro acc h; exact h
  | cons raw rest ih =>
      intro acc h
      exact ih (add_one_relationship oracle tid acc raw)
        (inv_add_one_relationship oracle tid acc raw h)

theorem inv_process_output (oracle : Oracle) (tid : String) (st : PState)
    (o : OutputRec) (hinv : Inv st) : Inv (process_output oracle tid st o) := by
  unfold process_output
  exact inv_add_semantic_belongings _ _ _
    (inv_add_relationships _ oracle o.relationships tid
      (inv_add_entities _ o.entities tid
        (inv_add_semantic_unit st o.semantic_unit tid hinv)))

theorem inv_graph_tasks (oracle : Oracle) (st : PState) (d : DataUnit)
    (hinv : Inv st) : Inv (graph_tasks oracle st d) := by
  unfold graph_tasks
  suffices h : ∀ (os : List OutputRec) (st : PState), Inv st →
      Inv (os.foldl (process_output oracle d.text_hash_id) st) by
    exact h d.outputs st hinv
  intro os
  induction os with
  | nil => intro st h; exact h
  | cons o rest ih =>
      intro st h
      exact ih _ (inv_process_output oracle d.text_hash_id st o h)

theorem inv_build_graph (oracle : Oracle) (data : List DataUnit) (st : PState)
    (hinv : Inv st) : Inv (build_graph oracle st data) := by
  unfold build_graph
  induction data generalizing st with
  | nil => exact hinv
  | cons d rest ih =>
      rw [List.foldl_cons]
      exact ih _ (inv_graph_tasks oracle st d hinv)

/-- C5: the completion invariant — for a construction run over any
decomposition data from a fresh (empty) state, the number of graph nodes of
each type equals the number of records the save stage persists for that type,
and consequently `save` passes all three assertions and returns the records
(whereas any mismatch would error out before any record list is returned for
persistence). -/
theorem completion_invariant (data : List DataUnit) (oracle : Oracle) :
    (build_graph oracle PState.empty data).G.countType .semantic_unit
      = (build_graph oracle PState.empty data).semantic_units.length ∧
    (build_graph oracle PState.empty data).G.countType .entity
      = (build_graph oracle PState.empty data).entities.length
        + (build_graph oracle PState.empty data).relationship_nodes.length ∧
    (build_graph oracle PState.empty data).G.countType .relationship
      = (build_graph oracle PState.empty data).relationship.length ∧
    ∃ recs, save (build_graph oracle PState.empty data) = Except.ok recs := by
  have hinv := inv_build_graph oracle data PState.empty inv_empty
  refine ⟨hinv.su_count, hinv.ent_count, hinv.rel_count, ?_⟩
  unfold save save_semantic_units save_entities save_relationships
  rw [if_pos (by rw [List.length_map]; exact hinv.su_count.symm)]
  rw [if_pos (by
    rw [List.length_append, List.length_map, List.length_map]
    exact hinv.ent_count.symm)]
  rw [if_pos (by rw [List.length_map]; exact hinv.rel_count.symm)]
  exact ⟨_, rfl⟩

/-- C4: the create-or-increment invariant — for an entity or a semantic unit
whose `hash_id` is already a node, processing it again increments that node's
weight by exactly 1 and adds no node; for an absent one, a single node of the
right type with weight 1 is created; and well-formedness (every weight ≥ 1, no
duplicated node identity) is preserved by both operations. -/
theorem create_or_increment (st : PState) (s text_hash_id : String)
    (hwf : GraphWF st.G) :
    (st.G.has_node (Entity.hash_id ⟨s, text_hash_id⟩) = true →
        (add_entities st [s] text_hash_id).1.G.numNodes = st.G.numNodes ∧
        (add_entities st [s] text_hash_id).1.G.weightOf (Entity.hash_id ⟨s, text_hash_id⟩)
          = st.G.weightOf (Entity.hash_id ⟨s, text_hash_id⟩) + 1) ∧
    (st.G.has_node (Entity.hash_id ⟨s, text_hash_id⟩) = false →
        (add_entities st [s] text_hash_id).1.G.numNodes = st.G.numNodes + 1 ∧
        (add_entities st [s] text_hash_id).1.G.nodeAttr (Entity.hash_id ⟨s, text_hash_id⟩)
          = some ⟨.entity, 1⟩) ∧
    (st.G.has_node (Semantic_unit.hash_id ⟨s, text_hash_id⟩) = true →
        (add_semantic_unit st s text_hash_id).1.G.numNodes = st.G.numNodes ∧
        (add_semantic_unit st s text_hash_id).1.G.weightOf
            (Semantic_unit.hash_id ⟨s, text_hash_id⟩)
          = st.G.weightOf (Semantic_unit.hash_id ⟨s, text_hash_id⟩) + 1) ∧
    (st.G.has_node (Semantic_unit.hash_id ⟨s, text_hash_id⟩) = false →
        (add_semantic_unit st s text_hash_id).1.G.numNodes = st.G.numNodes + 1 ∧
        (add_semantic_unit st s text_hash_id).1.G.nodeAttr
            (Semantic_unit.hash_id ⟨s, text_hash_id⟩)
          = some ⟨.semantic_unit, 1⟩) ∧
    GraphWF (add_entities st [s] text_hash_id).1.G ∧
    GraphWF (add_semantic_unit st s text_hash_id).1.G := by
  have hcoreE := createOrInc_core st.G (Entity.hash_id ⟨s, text_hash_id⟩) .entity hwf
  have hcoreS := createOrInc_core st.G (Semantic_unit.hash_id ⟨s, text_hash_id⟩)
    .semantic_unit hwf
  have hG_ent : (add_entities st [s] text_hash_id).1.G =
      (if st.G.has_node (Entity.hash_id ⟨s, text_hash_id⟩) then
        st.G.incWeight (Entity.hash_id ⟨s, text_hash_id⟩)
       else st.G.add_node (Entity.hash_id ⟨s, text_hash_id⟩) .entity 1) := by
    unfold add_entities add_one_entity
    simp only [List.foldl]
    split <;> rfl
  have hG_su : (add_semantic_unit st s text_hash_id).1.G =
      (if st.G.has_node (Semantic_unit.hash_id ⟨s, text_hash_id⟩) then
        st.G.incWeight (Semantic_unit.hash_id ⟨s, text_hash_id⟩)
       else st.G.add_node (Semantic_unit.hash_id ⟨s, text_hash_id⟩) .semantic_unit 1) := by
    unfold add_semantic_unit
    dsimp only
    split <;> rfl
  refine ⟨?_, ?_, ?_, ?_, ?_, ?_⟩
  · intro hn
    rw [hG_ent, if_pos hn]
    exact ⟨(hcoreE.1 hn).1, (hcoreE.1 hn).2.1⟩
  · intro hn
    rw [hG_ent, if_neg (by simp [hn])]
    exact ⟨(hcoreE.2 hn).1, (hcoreE.2 hn).2.1⟩
  · intro hn
    rw [hG_su, if_pos hn]
    exact ⟨(hcoreS.1 hn).1, (hcoreS.1 hn).2.1⟩
  · intro hn
    rw [hG_su, if_neg (by simp [hn])]
    exact ⟨(hcoreS.2 hn).1, (hcoreS.2 hn).2.1⟩
  · by_cases hn : st.G.has_node (Entity.hash_id ⟨s, text_hash_id⟩) = true
    · rw [hG_ent, if_pos hn]
      exact (hcoreE.1 hn).2.2
    · have hn' := Bool.not_eq_true _ |>.mp hn
      rw [hG_ent, if_neg (by simp [hn'])]
      exact (hcoreE.2 hn').2.2
  · by_cases hn : st.G.has_node (Semantic_unit.hash_id ⟨s, text_hash_id⟩) = true
    · rw [hG_su, if_pos hn]
      exact (hcoreS.1 hn).2.2
    · have hn' := Bool.not_eq_true _ |>.mp hn
      rw [hG_su, if_neg (by simp [hn'])]
      exact (hcoreS.2 hn').2.2

theorem create_or_increment_witness :
    (let st₀ : PState :=
      ⟨⟨[(HashId.dig2 "X" "t", ⟨NType.entity, 1⟩)], []⟩, [], [], [], [], []⟩
    (st₀.G.has_node (Entity.hash_id ⟨"X", "t"⟩) = true →
        (add_entities st₀ ["X"] "t").1.G.numNodes = st₀.G.numNodes ∧
        (add_entities st₀ ["X"] "t").1.G.weightOf (Entity.hash_id ⟨"X", "t"⟩)
          = st₀.G.weightOf (Entity.hash_id ⟨"X", "t"⟩) + 1) ∧
    (st₀.G.has_node (Entity.hash_id ⟨"X", "t"⟩) = false →
        (add_entities st₀ ["X"] "t").1.G.numNodes = st₀.G.numNodes + 1 ∧
        (add_entities st₀ ["X"] "t").1.G.nodeAttr (Entity.hash_id ⟨"X", "t"⟩)
          = some ⟨.entity, 1⟩) ∧
    (st₀.G.has_node (Semantic_unit.hash_id ⟨"X", "t"⟩) = true →
        (add_semantic_unit st₀ "X" "t").1.G.numNodes = st₀.G.numNodes ∧
        (add_semantic_unit st₀ "X" "t").1.G.weightOf (Semantic_unit.hash_id ⟨"X", "t"⟩)
          = st₀.G.weightOf (Semantic_unit.hash_id ⟨"X", "t"⟩) + 1) ∧
    (st₀.G.has_node (Semantic_unit.hash_id ⟨"X", "t"⟩) = false →
        (add_semantic_unit st₀ "X" "t").1.G.numNodes = st₀.G.numNodes + 1 ∧
        (add_semantic_unit st₀ "X" "t").1.G.nodeAttr (Semantic_unit.hash_id ⟨"X", "t"⟩)
          = some ⟨.semantic_unit, 1⟩) ∧
    GraphWF (add_entities st₀ ["X"] "t").1.G ∧
    GraphWF (add_semantic_unit st₀ "X" "t").1.G) :=
  create_or_increment
    ⟨⟨[(HashId.dig2 "X" "t", ⟨NType.entity, 1⟩)], []⟩, [], [], [], [], []⟩
    "X" "t" (by constructor <;> decide)

/-- C7: the end-to-end scenario — one decomposition output
`{semantic_unit: "Alice manages Bob", entities: ["ALICE","BOB"],
relationships: ["ALICE, manages, BOB"]}` on an empty graph yields exactly 3
entity/semantic nodes and 1 relationship node, exactly the 4 claimed edges,
and every node and edge weight is 1. -/
theorem end_to_end_scenario :
    (build_graph (fun _ => .nonDict) PState.empty
      [⟨"t1", [⟨"Alice manages Bob", ["ALICE", "BOB"], ["ALICE, manages, BOB"]⟩]⟩]).G.countType
        .semantic_unit = 1 ∧
    (build_graph (fun _ => .nonDict) PState.empty
      [⟨"t1", [⟨"Alice manages Bob", ["ALICE", "BOB"], ["ALICE, manages, BOB"]⟩]⟩]).G.countType
        .entity = 2 ∧
    (build_graph (fun _ => .nonDict) PState.empty
      [⟨"t1", [⟨"Alice manages Bob", ["ALICE", "BOB"], ["ALICE, manages, BOB"]⟩]⟩]).G.countType
        .relationship = 1 ∧
    (build_graph (fun _ => .nonDict) PState.empty
      [⟨"t1", [⟨"Alice manages Bob", ["ALICE", "BOB"], ["ALICE, manages, BOB"]⟩]⟩]).G.numNodes
      = 4 ∧
    (build_graph (fun _ => .nonDict) PState.empty
      [⟨"t1", [⟨"Alice manages Bob", ["ALICE", "BOB"], ["ALICE, manages, BOB"]⟩]⟩]).G.numEdges
      = 4 ∧
    (build_graph (fun _ => .nonDict) PState.empty
      [⟨"t1", [⟨"Alice manages Bob", ["ALICE", "BOB"], ["ALICE, manages, BOB"]⟩]⟩]).G.nodes.all
        (fun p => p.2.weight = 1) = true ∧
    (build_graph (fun _ => .nonDict) PState.empty
      [⟨"t1", [⟨"Alice manages Bob", ["ALICE", "BOB"], ["ALICE, manages, BOB"]⟩]⟩]).G.edges.all
        (fun e => e.2.2 = 1) = true ∧
    (build_graph (fun _ => .nonDict) PState.empty
      [⟨"t1", [⟨"Alice manages Bob", ["ALICE", "BOB"], ["ALICE, manages, BOB"]⟩]⟩]).G.has_edge
        (Semantic_unit.hash_id ⟨"Alice manages Bob", "t1"⟩)
        (Entity.hash_id ⟨"ALICE", "t1"⟩) = true ∧
    (build_graph (fun _ => .nonDict) PState.empty
      [⟨"t1", [⟨"Alice manages Bob", ["ALICE", "BOB"], ["ALICE, manages, BOB"]⟩]⟩]).G.has_edge
        (Semantic_unit.hash_id ⟨"Alice manages Bob", "t1"⟩)
        (Entity.hash_id ⟨"BOB", "t1"⟩) = true ∧
    (build_graph (fun _ => .nonDict) PState.empty
      [⟨"t1", [⟨"Alice manages Bob", ["ALICE", "BOB"], ["ALICE, manages, BOB"]⟩]⟩]).G.has_edge
        (Entity.hash_id ⟨"ALICE", "t1"⟩)
        (genidRel (fsetPair (Entity.hash_id ⟨"ALICE", "t1"⟩)
          (Entity.hash_id ⟨"BOB", "t1"⟩))) = true ∧
    (build_graph (fun _ => .nonDict) PState.empty
      [⟨"t1", [⟨"Alice manages Bob", ["ALICE", "BOB"], ["ALICE, manages, BOB"]⟩]⟩]).G.has_edge
        (genidRel (fsetPair (Entity.hash_id ⟨"ALICE", "t1"⟩)
          (Entity.hash_id ⟨"BOB", "t1"⟩)))
        (Entity.hash_id ⟨"BOB", "t1"⟩) = true := by
  decide

/-- C10: `safe_json_parse` does map `None`, NA, emptiness and malformed text
to `None`, but on the valid scalar JSON text `"5"` it returns the parsed
number itself — a value that is neither a dict nor a list nor `None`,
contradicting the function's own `Optional[dict | list]` contract that the
claim restates. -/
theorem safe_json_parse_scalar_divergence :
    safe_json_parse (.str "5") = some (.jnum 5 0) ∧
    Option.map JVal.isContainer (safe_json_parse (.str "5")) = some false ∧
    safe_json_parse (.str "not json") = none ∧
    safe_json_parse .noneV = none ∧
    safe_json_parse .na = none ∧
    safe_json_parse (.str "") = none ∧
    safe_json_parse (.str "```json\n\x7b\"key\": \"value\"\x7d\n```") =
      some (.jobj [("key", .jstr "value")]) :=
  ⟨rfl, rfl, rfl, rfl, rfl, rfl, rfl⟩

/-- C8 counterexample: the claim says the enforced concurrency bound equals the
configured value; but `API_client.__init__` creates `asyncio.Semaphore(1)`
unconditionally, so a configuration carrying a concurrency setting of 4 still
gets bound 1. -/
theorem concurrency_bound_counterexample :
    (APIClient.init ⟨none, none, some 4⟩).semaphoreBound = 1 ∧ (1 : Nat) ≠ 4 :=
  ⟨rfl, by decide⟩

/-- C8 (amended): the client's maximum number of concurrent in-flight calls is
hard-coded to 1 (strict single-flight) for every configuration — only the
rate-limit delay is configurable, as `request_delay` or `60 / rate_limit`
(default rate 10, fallback 6 seconds when non-positive). -/
theorem concurrency_bound_amended (config config' : ModelConfig) :
    (APIClient.init config).semaphoreBound = 1 ∧
    (APIClient.init config).semaphoreBound = (APIClient.init config').semaphoreBound ∧
    (APIClient.init config).request_delay =
      (match config.request_delay with
       | some d => d
       | none =>
           if config.rate_limit.getD 10 > 0 then 60 / config.rate_limit.getD 10
           else 6) := by
  refine ⟨rfl, rfl, ?_⟩
  unfold APIClient.init
  rcases hc : config.request_delay with _ | d <;> simp [hc]

/-- C9 counterexample: the claim promises at-least-`d` spacing for calls from
multiple concurrent callers; but the synchronous `request` path reads the
shared `last_request_time` without the lock and writes it only after its
dispatch returns, so two callers that both read the initial value `0` (the
first caller's write still pending behind its in-flight `predict`) dispatch
1 second apart under a configured delay of 5. -/
theorem rate_limit_pacing_counterexample :
    syncDispatch 5 0 100 = 100 ∧
    syncDispatch 5 0 101 = 101 ∧
    syncDispatch 5 0 101 - syncDispatch 5 0 100 < 5 := by
  refine ⟨?_, ?_, ?_⟩ <;> norm_num [syncDispatch]

theorem paceDispatch_ge (d last a e : ℚ) (he : 0 ≤ e) :
    last + d ≤ paceDispatch d last a e := by
  unfold paceDispatch
  split
  · linarith
  · rename_i hgt
    have : d ≤ a - last := le_of_not_lt hgt
    linarith

/-- C9 (amended): on the asynchronous `__call__` path — where the shared
last-call time is read, compared and updated as one lock-protected critical
section immediately before dispatch — any serialized sequence of calls has
consecutive dispatch timestamps at least `d` apart, whatever the arrival times
of the callers; the synchronous `request` path gives no such guarantee to
concurrent callers. -/
theorem rate_limit_pacing_amended (d : ℚ) (calls : List (ℚ × ℚ))
    (heps : ∀ c ∈ calls, 0 ≤ c.2) (last0 : ℚ) :
    List.Chain' (fun t1 t2 => t1 + d ≤ t2) (paceTrace d last0 calls) := by
  revert heps
  induction calls generalizing last0 with
  | nil => intro _; simp [paceTrace]
  | cons c rest ih =>
      intro heps
      obtain ⟨a, e⟩ := c
      have hrest : ∀ x ∈ rest, (0 : ℚ) ≤ x.2 :=
        fun x hx => heps x (List.mem_cons_of_mem _ hx)
      have hmain := ih (paceDispatch d last0 a e) hrest
      cases rest with
      | nil => simp [paceTrace]
      | cons c2 r2 =>
          obtain ⟨a2, e2⟩ := c2
          have he2 : (0 : ℚ) ≤ e2 := hrest (a2, e2) (List.mem_cons_self _ _)
          simp only [paceTrace] at hmain ⊢
          exact List.Chain'.cons (paceDispatch_ge d _ a2 e2 he2) hmain

theorem rate_limit_pacing_amended_witness :
    List.Chain' (fun t1 t2 => t1 + (2 : ℚ) ≤ t2)
      (paceTrace 2 0 [(0, 0), (1, 0), (10, 1)]) :=
  rate_limit_pacing_amended 2 [(0, 0), (1, 0), (10, 1)] (by norm_num) 0

/-- C3 counterexample: a classified failure (the 3-character body `"err"`) is
returned to the caller unchanged — neither cached nor raised — as soon as
`cache_path` is absent, by both decorators; the claim asserts it would be
raised. -/
theorem error_cache_counterexample :
    is_error_response "err" = true ∧
    cache_error (.str "err") [("query", "q")] none (some "meta") =
      .ret (.str "err") ∧
    cache_error_async (.str "err") [("query", "q")] none (some "meta") =
      .ret (.str "err") := by
  decide

/-- C3 (amended): with a truthy `cache_path`, a classified failure is cached
(with the response-format field stripped) and reported as `'Error cached'`
when metadata is present, and raised when metadata is absent — in both
decorators; when `cache_path` is absent (or empty), the failure is returned to
the caller without classification by both.  The two decorators are NOT
identical: with a truthy `cache_path` the sync `cache_error` raises every
non-classified string response as well (its `'Error cached'` comparison sits
outside the `is_error` check), while `cache_error_async` passes non-classified
strings through. -/
theorem error_cache_amended (s : String) (input : InputDict)
    (cache_path : Option String) (meta_data : Option String)
    (herr : is_error_response s = true) :
    (truthyPath cache_path = true →
        (∀ md, meta_data = some md →
            cache_error (.str s) input cache_path meta_data =
              .cached (stripResponseFormat input, md) ∧
            cache_error_async (.str s) input cache_path meta_data =
              .cached (stripResponseFormat input, md)) ∧
        (meta_data = none → s ≠ "Error cached" →
            cache_error (.str s) input cache_path meta_data =
              .raised ("LLM Error: " ++ s) ∧
            cache_error_async (.str s) input cache_path meta_data =
              .raised ("LLM Error: " ++ s))) ∧
    (truthyPath cache_path = false →
        cache_error (.str s) input cache_path meta_data = .ret (.str s) ∧
        cache_error_async (.str s) input cache_path meta_data = .ret (.str s)) ∧
    (∀ s2, is_error_response s2 = false → truthyPath cache_path = true →
        cache_error (.str s2) input cache_path meta_data =
          .raised ("LLM Error: " ++ s2) ∧
        cache_error_async (.str s2) input cache_path meta_data = .ret (.str s2)) := by
  unfold cache_error cache_error_async
  refine ⟨?_, ?_, ?_⟩
  · intro htr
    constructor
    · intro md hmd
      subst hmd
      cases cache_path with
      | none => exact absurd htr (by simp [truthyPath])
      | some p => exact ⟨by simp [htr, herr], by simp [htr, herr]⟩
    · intro hmd hne
      subst hmd
      cases cache_path with
      | none => exact absurd htr (by simp [truthyPath])
      | some p => exact ⟨by simp [htr, herr, hne], by simp [htr, herr, hne]⟩
  · intro htr
    exact ⟨by simp [htr], by simp [htr]⟩
  · intro s2 herr2 htr
    have hne2 : s2 ≠ "Error cached" := by
      intro h
      rw [h] at herr2
      exact absurd herr2 (by decide)
    exact ⟨by simp [htr, herr2, hne2], by simp [htr, herr2]⟩

theorem error_cache_amended_witness :
    (truthyPath (some "cache.jsonl") = true →
        (∀ md, (some "m" : Option String) = some md →
            cache_error (.str "err") [("query", "q"), ("response_format", "sch")]
              (some "cache.jsonl") (some "m") =
              .cached (stripResponseFormat [("query", "q"), ("response_format", "sch")], md) ∧
            cache_error_async (.str "err") [("query", "q"), ("response_format", "sch")]
              (some "cache.jsonl") (some "m") =
              .cached (stripResponseFormat [("query", "q"), ("response_format", "sch")], md)) ∧
        ((some "m" : Option String) = none → "err" ≠ "Error cached" →
            cache_error (.str "err") [("query", "q"), ("response_format", "sch")]
              (some "cache.jsonl") (some "m") =
              .raised ("LLM Error: " ++ "err") ∧
            cache_error_async (.str "err") [("query", "q"), ("response_format", "sch")]
              (some "cache.jsonl") (some "m") =
              .raised ("LLM Error: " ++ "err"))) ∧
    (truthyPath (some "cache.jsonl") = false →
        cache_error (.str "err") [("query", "q"), ("response_format", "sch")]
          (some "cache.jsonl") (some "m") = .ret (.str "err") ∧
        cache_error_async (.str "err") [("query", "q"), ("response_format", "sch")]
          (some "cache.jsonl") (some "m") = .ret (.str "err")) ∧
    (∀ s2, is_error_response s2 = false → truthyPath (some "cache.jsonl") = true →
        cache_error (.str s2) [("query", "q"), ("response_format", "sch")]
          (some "cache.jsonl") (some "m") =
          .raised ("LLM Error: " ++ s2) ∧
        cache_error_async (.str s2) [("query", "q"), ("response_format", "sch")]
          (some "cache.jsonl") (some "m") = .ret (.str s2)) :=
  error_cache_amended "err" [("query", "q"), ("response_format", "sch")]
    (some "cache.jsonl") (some "m") (by decide)

/-- C2 counterexample: processing two raw triples with the same endpoints on an
empty state leaves one relationship whose accumulated `raw_context` does NOT
contain the second raw line — `Relationship.add` receives the pre-joined
string, iterates its characters and space-joins them — and whose two endpoint
edges keep weight 1 (the merge branch stops before touching edges, so nothing
increments). -/
theorem relationship_merge_counterexample :
    let st := (add_relationships PState.empty (fun _ => .nonDict)
      ["ALICE, manages, BOB", "ALICE, likes, BOB"] "t1").1
    st.relationship.map Relationship.raw_context =
      ["ALICE manages BOB\tA L I C E   l i k e s   B O B"] ∧
    strHas "ALICE manages BOB\tA L I C E   l i k e s   B O B" "ALICE likes BOB" =
      false ∧
    st.G.countType .relationship = 1 ∧
    st.G.edges.all (fun e => e.2.2 = 1) = true ∧
    ¬ st.G.edges.all (fun e => e.2.2 = 2) = true := by
  decide

/-- C2 (amended): for every pair of distinct endpoint names and any relation
texts, processing two raw triples with that same endpoint pair leaves exactly
one relationship node and exactly the two endpoint edges with weight 1 (the
merge adds no nodes or edges and increments nothing), and the merged
`raw_context` is the first raw line, a tab, and the second raw line exploded
character by character with spaces — the result of `Relationship.add`
receiving the pre-joined string instead of the declared element list. -/
theorem relationship_merge_amended (raw1 raw2 A B r1 r2 tid : String)
    (oracle : Oracle) (hAB : A ≠ B)
    (h1 : (pySplitComma raw1).map pyStrip = [A, r1, B])
    (h2 : (pySplitComma raw2).map pyStrip = [A, r2, B]) :
    (add_relationships PState.empty oracle [raw1, raw2] tid).1.relationship.length = 1 ∧
    (add_relationships PState.empty oracle [raw1, raw2] tid).1.G.countType .relationship
      = 1 ∧
    (add_relationships PState.empty oracle [raw1, raw2] tid).1.relationship.map
        Relationship.raw_context =
      [String.intercalate " " [A, r1, B] ++ "\t" ++
        String.intercalate " "
          ((String.intercalate " " [A, r2, B]).data.map
            (fun c => String.singleton c))] ∧
    (add_relationships PState.empty oracle [raw1, raw2] tid).1.G.numEdges = 2 ∧
    (add_relationships PState.empty oracle [raw1, raw2] tid).1.G.edges.map
        (fun e => e.2.2) = [1, 1] := by
  have e1 : prepare_triple oracle raw1 = ([some A, some r1, some B], false) := by
    simp [prepare_triple, h1]
  have e2 : prepare_triple oracle raw2 = ([some A, some r2, some B], false) := by
    simp [prepare_triple, h2]
  have hne : HashId.dig2 A tid ≠ HashId.dig2 B tid := by simp [hAB]
  have hrs : genidRel (fsetPair (HashId.dig2 A tid) (HashId.dig2 B tid))
      ≠ HashId.dig2 A tid := genidRel_fsetPair_ne_dig2 _ _ _ _
  have hrt : genidRel (fsetPair (HashId.dig2 A tid) (HashId.dig2 B tid))
      ≠ HashId.dig2 B tid := genidRel_fsetPair_ne_dig2 _ _ _ _
  simp only [add_relationships, List.foldl_cons, List.foldl_nil]
  unfold add_one_relationship relEndpointStep add_edge_or_inc
  rw [e1, e2]
  simp [PState.empty, Graph.empty, Graph.has_node, Graph.has_edge, Graph.add_node,
    Graph.add_edge, Graph.incEdge, Graph.countType, Graph.numEdges, lookupContains,
    edgeMatch, Relationship.ofTuple, Relationship.hash_id, Relationship.add,
    Entity.hash_id, PySeq.elems, hne, Ne.symm hne, hrs, hrt, Ne.symm hrs, Ne.symm hrt]

theorem relationship_merge_amended_witness :
    (add_relationships PState.empty (fun _ => .nonDict)
        ["ALICE, reports to, BOB", "ALICE, mentors, BOB"] "t1").1.relationship.length = 1 ∧
    (add_relationships PState.empty (fun _ => .nonDict)
        ["ALICE, reports to, BOB", "ALICE, mentors, BOB"] "t1").1.G.countType .relationship
      = 1 ∧
    (add_relationships PState.empty (fun _ => .nonDict)
        ["ALICE, reports to, BOB", "ALICE, mentors, BOB"] "t1").1.relationship.map
        Relationship.raw_context =
      [String.intercalate " " ["ALICE", "reports to", "BOB"] ++ "\t" ++
        String.intercalate " "
          ((String.intercalate " " ["ALICE", "mentors", "BOB"]).data.map
            (fun c => String.singleton c))] ∧
    (add_relationships PState.empty (fun _ => .nonDict)
        ["ALICE, reports to, BOB", "ALICE, mentors, BOB"] "t1").1.G.numEdges = 2 ∧
    (add_relationships PState.empty (fun _ => .nonDict)
        ["ALICE, reports to, BOB", "ALICE, mentors, BOB"] "t1").1.G.edges.map
        (fun e => e.2.2) = [1, 1] :=
  relationship_merge_amended "ALICE, reports to, BOB" "ALICE, mentors, BOB"
    "ALICE" "BOB" "reports to" "mentors" "t1" (fun _ => .nonDict)
    (by decide) (by decide) (by decide)

end NodeRAG
